import Mathlib

/-!
Verification development for the dsari scheduler daemon ("Do Something and
Record It").  The definitions below are a shallow embedding, translated from
the repository sources:

* `src/dsari/daemon.py`    — scheduler loop, admission, trigger intake,
  child reaping (`wait_deadline`), recurrence (`get_next_schedule_time`);
* `src/dsari/database.py`  — run persistence (`insert_run`, `get_runs`,
  `_build_run_from_result`);
* `src/dsari/croniter_hash.py` — Jenkins-style `H` hashing of cron fields;
* `src/dsari/__init__.py`  — `Job`, `Run`, `ConcurrencyGroup` data model.

Conventions used throughout:

* Python `datetime` values are modelled as integers counting microseconds
  (a `datetime` has exactly microsecond resolution); epoch-second floats are
  modelled as exact rationals.  Where CPython rounds a float to a whole
  microsecond (`timedelta(seconds=...)`, `datetime.fromtimestamp`), we model
  the rounding of the exact rational with round-half-to-even, CPython's
  rounding mode.  Float arithmetic itself is modelled as exact rational
  arithmetic; every concrete value examined below is far from a rounding
  boundary, so the (at most 2⁻⁵² relative) float error cannot change any
  stated result.
* Python object identity is modelled by a numeric identity field (`gid`,
  `jid`, `rid`) carried inside each structure: distinct Python objects get
  distinct identity numbers, so value equality of the embedded structures
  coincides with the `==`/`in` checks of the source (which default to
  identity for these classes — none of them defines `__eq__`).
* `json.dumps` / `json.loads` (standard library) are modelled by a concrete
  serializer and parser over the value domain the daemon stores (null,
  booleans, integers, strings, arrays, objects), together with a proved
  round-trip theorem; float literals are outside the modelled domain.
-/

set_option maxRecDepth 40000

/-! ### Rational rounding helpers

`roundHalfEven` models CPython's float→microsecond quantization (round half
to even).  `natDivRoundHalfEven` is the same function specialized to a
quotient of naturals, kept in `Nat` so that concrete instances evaluate by
`decide`. -/

def roundHalfEven (q : ℚ) : ℤ :=
  let n := q.num
  let d : ℤ := (q.den : ℤ)
  let f := n / d
  let r2 := 2 * (n - d * f)
  if r2 < d then f
  else if d < r2 then f + 1
  else if f % 2 = 0 then f else f + 1

def natDivRoundHalfEven (a b : ℕ) : ℕ :=
  let f := a / b
  let r2 := 2 * (a % b)
  if r2 < b then f
  else if b < r2 then f + 1
  else if f % 2 = 0 then f else f + 1

/-! ### Characters and digit strings

Character constants are written via their ASCII codes.  `encNat` renders a
natural number in decimal (the model of Python's `str()`/`json.dumps` for
numbers); `parseNatFrom` consumes a maximal run of decimal digits. -/

def cQuote : Char := Char.ofNat 34
def cBackslash : Char := Char.ofNat 92
def cComma : Char := Char.ofNat 44
def cColon : Char := Char.ofNat 58
def cLbrack : Char := Char.ofNat 91
def cRbrack : Char := Char.ofNat 93
def cLbrace : Char := Char.ofNat 123
def cRbrace : Char := Char.ofNat 125
def cMinus : Char := Char.ofNat 45
def cLowerN : Char := Char.ofNat 110
def cLowerT : Char := Char.ofNat 116
def cLowerF : Char := Char.ofNat 102

def isDigitCh (c : Char) : Bool := 48 ≤ c.toNat && c.toNat ≤ 57

def digitCh (d : ℕ) : Char := Char.ofNat (48 + d)

/-- Little-endian decimal digits, by explicit fuel (`fuel ≥ n` suffices). -/
def natDigitsRevAux : ℕ → ℕ → List ℕ
  | 0, _ => []
  | fuel + 1, n => if n = 0 then [] else (n % 10) :: natDigitsRevAux fuel (n / 10)

def natDigitsRev (n : ℕ) : List ℕ := natDigitsRevAux n n

/-- Decimal rendering of a natural number, as a character list. -/
def encNat (n : ℕ) : List Char :=
  if n = 0 then [digitCh 0] else (natDigitsRev n).reverse.map digitCh

/-- Decimal rendering of an integer (model of Python `str` on `int`). -/
def encInt (i : ℤ) : List Char :=
  if i < 0 then cMinus :: encNat i.natAbs else encNat i.natAbs

/-- Value of a little-endian digit list. -/
def vOfDigitsRev : List ℕ → ℕ
  | [] => 0
  | d :: tl => d + 10 * vOfDigitsRev tl

/-- Consume a maximal run of decimal digits, accumulating left-to-right. -/
def parseNatFrom : List Char → ℕ → ℕ × List Char
  | [], acc => (acc, [])
  | c :: tl, acc =>
    if isDigitCh c then parseNatFrom tl (acc * 10 + (c.toNat - 48)) else (acc, c :: tl)

/-- `stripLead pre s` removes the leading characters `pre` from `s`, if present. -/
def stripLead : List Char → List Char → Option (List Char)
  | [], s => some s
  | _ :: _, [] => none
  | t :: ts, c :: cs => if c = t then stripLead ts cs else none

/-- `true` when the list does not begin with a decimal digit (so that a
number parsed immediately before it cannot swallow its first character). -/
def noDigitHead : List Char → Bool
  | [] => true
  | c :: _ => !isDigitCh c

/-! ### JSON values

Model of the values handled by `json.load`/`json.dumps` in the daemon
(trigger data and run data).  Strings are carried as character lists. -/

mutual
inductive JVal : Type
  | jnull : JVal
  | jbool : Bool → JVal
  | jnum : ℤ → JVal
  | jstr : List Char → JVal
  | jarr : JArr → JVal
  | jobj : JObj → JVal
inductive JArr : Type
  | anil : JArr
  | acons : JVal → JArr → JArr
inductive JObj : Type
  | onil : JObj
  | ocons : List Char → JVal → JObj → JObj
end

deriving instance DecidableEq for JVal
deriving instance DecidableEq for JArr
deriving instance DecidableEq for JObj

/-- Escape a character for a JSON string literal (quote and backslash). -/
def escChar (c : Char) : List Char :=
  if c = cQuote ∨ c = cBackslash then [cBackslash, c] else [c]

def escStr (s : List Char) : List Char := (s.map escChar).flatten

mutual
/-- Model of `json.dumps` (whitespace-free separators; the concrete
separator text is immaterial, only the `loadJ`/`dumpJ` round trip below is
relied upon). -/
def dumpJ : JVal → List Char
  | .jnull => ("null").data
  | .jbool true => ("true").data
  | .jbool false => ("false").data
  | .jnum n => encInt n
  | .jstr s => cQuote :: (escStr s ++ [cQuote])
  | .jarr .anil => [cLbrack, cRbrack]
  | .jarr (.acons v tl) => cLbrack :: (dumpJ v ++ dumpArrTail tl ++ [cRbrack])
  | .jobj .onil => [cLbrace, cRbrace]
  | .jobj (.ocons k v tl) => cLbrace :: (dumpMember k v ++ dumpObjTail tl ++ [cRbrace])

def dumpArrTail : JArr → List Char
  | .anil => []
  | .acons v tl => cComma :: (dumpJ v ++ dumpArrTail tl)

def dumpMember (k : List Char) (v : JVal) : List Char :=
  cQuote :: (escStr k ++ cQuote :: cColon :: dumpJ v)

def dumpObjTail : JObj → List Char
  | .onil => []
  | .ocons k v tl => cComma :: (dumpMember k v ++ dumpObjTail tl)
end

/-- Parse the body of a JSON string literal (after the opening quote),
returning the unescaped content and the remainder after the closing quote. -/
def parseStrBody : List Char → Option (List Char × List Char)
  | [] => none
  | c :: tl =>
    if c = cQuote then some ([], tl)
    else if c = cBackslash then
      match tl with
      | [] => none
      | e :: tl2 =>
        match parseStrBody tl2 with
        | some (s, r) => some (e :: s, r)
        | none => none
    else
      match parseStrBody tl with
      | some (s, r) => some (c :: s, r)
      | none => none

/-- Parse a JSON number (optional minus sign, then digits). -/
def parseJNum : List Char → Option (ℤ × List Char)
  | [] => none
  | c :: tl =>
    if c = cMinus then
      match tl with
      | [] => none
      | c2 :: _ =>
        if isDigitCh c2 then
          let p := parseNatFrom tl 0
          some (-(p.1 : ℤ), p.2)
        else none
    else if isDigitCh c then
      let p := parseNatFrom (c :: tl) 0
      some ((p.1 : ℤ), p.2)
    else none

mutual
/-- Fuel-indexed JSON parser (model of `json.loads`). -/
def parseVal : ℕ → List Char → Option (JVal × List Char)
  | 0, _ => none
  | fuel + 1, s =>
    match s with
    | [] => none
    | c :: tl =>
      if c = cQuote then
        match parseStrBody tl with
        | some (str, r) => some (.jstr str, r)
        | none => none
      else if c = cLbrack then
        match tl with
        | [] => none
        | c2 :: tl2 =>
          if c2 = cRbrack then some (.jarr .anil, tl2)
          else
            match parseElems fuel tl with
            | some (xs, r) => some (.jarr xs, r)
            | none => none
      else if c = cLbrace then
        match tl with
        | [] => none
        | c2 :: tl2 =>
          if c2 = cRbrace then some (.jobj .onil, tl2)
          else
            match parseMembers fuel tl with
            | some (kvs, r) => some (.jobj kvs, r)
            | none => none
      else if c = cLowerN then (stripLead ("ull").data tl).map (fun r => (.jnull, r))
      else if c = cLowerT then (stripLead ("rue").data tl).map (fun r => (.jbool true, r))
      else if c = cLowerF then (stripLead ("alse").data tl).map (fun r => (.jbool false, r))
      else
        match parseJNum (c :: tl) with
        | some (n, r) => some (.jnum n, r)
        | none => none

def parseElems : ℕ → List Char → Option (JArr × List Char)
  | 0, _ => none
  | fuel + 1, s =>
    match parseVal fuel s with
    | none => none
    | some (v, r) =>
      match r with
      | [] => none
      | c :: tl =>
        if c = cComma then
          match parseElems fuel tl with
          | some (xs, r2) => some (.acons v xs, r2)
          | none => none
        else if c = cRbrack then some (.acons v .anil, tl)
        else none

def parseMembers : ℕ → List Char → Option (JObj × List Char)
  | 0, _ => none
  | fuel + 1, s =>
    match s with
    | [] => none
    | c :: tl =>
      if c = cQuote then
        match parseStrBody tl with
        | none => none
        | some (k, r1) =>
          match r1 with
          | [] => none
          | c2 :: tl2 =>
            if c2 = cColon then
              match parseVal fuel tl2 with
              | none => none
              | some (v, r2) =>
                match r2 with
                | [] => none
                | c3 :: tl3 =>
                  if c3 = cComma then
                    match parseMembers fuel tl3 with
                    | some (kvs, r3) => some (.ocons k v kvs, r3)
                    | none => none
                  else if c3 = cRbrace then some (.ocons k v .onil, tl3)
                  else none
            else none
      else none
end

mutual
/-- Fuel sufficient for `parseVal` to parse this value. -/
def jMu : JVal → ℕ
  | .jarr xs => 1 + jMuArr xs
  | .jobj kvs => 1 + jMuObj kvs
  | _ => 1
def jMuArr : JArr → ℕ
  | .anil => 0
  | .acons v tl => 1 + max (jMu v) (jMuArr tl)
def jMuObj : JObj → ℕ
  | .onil => 0
  | .ocons _ v tl => 1 + max (jMu v) (jMuObj tl)
end

/-- Model of `json.loads` on a whole document (input must be consumed fully). -/
def loadJ (s : List Char) : Option JVal :=
  match parseVal (s.length + 1) s with
  | some (v, []) => some v
  | _ => none

/-! ### CRC32 (`binascii.crc32`)

Bit-level implementation of the standard reflected CRC-32 used by
`binascii.crc32` (polynomial `0xEDB88320`, initial and final XOR
`0xFFFFFFFF`). -/

def crc32Step (c : ℕ) : ℕ := if c % 2 = 1 then (c / 2) ^^^ 0xEDB88320 else c / 2

def crc32Byte (c b : ℕ) : ℕ := crc32Step^[8] (c ^^^ (b % 256))

def crc32Bytes (bs : List ℕ) : ℕ := (bs.foldl crc32Byte 0xFFFFFFFF) ^^^ 0xFFFFFFFF

/-- Bytes of a job-name string (`.encode('utf-8')`; every job name used in
the claims is ASCII, for which UTF-8 bytes coincide with code points). -/
def strBytes (s : String) : List ℕ := s.data.map Char.toNat

/-- `binascii.crc32(name.encode('utf-8')) & 0xffffffff`. -/
def crc32Name (s : String) : ℕ := crc32Bytes (strBytes s)

/-! ### Child exit status (`wait_deadline`, daemon.py lines 79-91)

`waitChildExit` is the exit-code computation of `wait_deadline`:
`child_signal = child_exit % 256; 128 + child_signal` if positive, else
`child_exit >> 8`.  The `wTermSig`/`wIfSignaled`/`wIfExited` accessors are
modelled from the POSIX wait-status layout (low 7 bits: terminating signal;
bit 7: core-dump flag; high byte: exit status), which the source does not
use — that is exactly what claim C4 is about. -/

def waitChildExit (status : ℕ) : ℕ :=
  let child_signal := status % 256
  if 0 < child_signal then 128 + child_signal else status / 256

def wTermSig (status : ℕ) : ℕ := status % 128

def wIfSignaled (status : ℕ) : Bool :=
  decide (status % 128 ≠ 0) && decide (status % 128 ≠ 127)

def wIfExited (status : ℕ) : Bool := decide (status % 128 = 0)

def wExitStatus (status : ℕ) : ℕ := status / 256 % 256

/-! ### The `RRULE:` branch of `get_next_schedule_time` (daemon.py lines 59-66)

The source computes `t = rrulestr(...).after(start_time) + subsecond_offset`
and only then checks `if t is None: raise ValueError`.  `dateutil`'s
`.after` returns `None` when a bounded rule has no occurrence after the
anchor; adding a `timedelta` to `None` raises `TypeError`.  The Python
optional value flowing through the region is modelled as `Option ℤ` and the
two raise sites as `Except` errors. -/

inductive PyExc : Type
  | typeError : PyExc
  | valueError : PyExc
deriving DecidableEq

/-- `rrule.after(start) + subsecond_offset`: `None + timedelta` raises. -/
def pyAddOptDT (t : Option ℤ) (offUs : ℤ) : Except PyExc (Option ℤ) :=
  match t with
  | none => .error .typeError
  | some v => .ok (some (v + offUs))

/-- daemon.py lines 63-66, given the result of `rrule.after(start_time)`. -/
def getNextScheduleTimeRRule (afterResult : Option ℤ) (offUs : ℤ) :
    Except PyExc (Option ℤ) :=
  match pyAddOptDT afterResult offUs with
  | .error e => .error e
  | .ok t => if t = none then .error .valueError else .ok t

/-- `dateutil` `rrule.after(start)` for a bounded rule, modelled as the
first listed occurrence strictly after the anchor (occurrences ascending). -/
def rruleAfter (occurrencesUs : List ℤ) (startUs : ℤ) : Option ℤ :=
  occurrencesUs.find? (fun o => decide (startUs < o))

/-! ### Cron branch of `get_next_schedule_time` (daemon.py lines 54-76,
croniter_hash.py lines 49-116)

Datetimes are microseconds on a timeline whose origin is hour-aligned
(every concrete anchor below is `2020-01-01T00:00:00`).  The sub-second
offset is `seconds_to_td(float(crc) / float(0xffffffff))`: an exact
rational quotient quantized to the whole-microsecond resolution of a
`timedelta` (`seconds_to_td` is `datetime.timedelta(seconds=...)`; it is
absent from `src/dsari/utils.py` and is modelled from the spec, which
stores instants as float epoch seconds and datetimes at microsecond
resolution). -/

def subsecondOffsetUs (crc : ℕ) : ℕ := natDivRoundHalfEven (crc * 1000000) 4294967295

/-- The spec's sub-second offset, in seconds: `crc32(name) / 2^32`. -/
def specSubsecondOffset (crc : ℕ) : ℚ := (crc : ℚ) / 4294967296

def cSpace : Char := Char.ofNat 32

/-- `str.split(' ')`: split on every single space. -/
def splitOnSpaceAux : List Char → List Char → List (List Char)
  | [], acc => [acc.reverse]
  | c :: tl, acc =>
    if c = cSpace then acc.reverse :: splitOnSpaceAux tl [] else splitOnSpaceAux tl (c :: acc)

def pySplitSpace (s : String) : List String :=
  (splitOnSpaceAux s.data []).map (fun l => String.mk l)

/-- Indexed map, mirroring `_hash_expand`'s use of the running length of
the expanded list as the field index. -/
def mapWithIdx (f : ℕ → String → String) : List String → ℕ → List String
  | [], _ => []
  | x :: tl, i => f i x :: mapWithIdx f tl (i + 1)

/-- croniter's `RANGES` (begin, end) for fields minute, hour, day-of-month,
month, day-of-week, second. -/
def cronRanges : List (ℕ × ℕ) := [(0, 59), (0, 23), (1, 31), (1, 12), (0, 6), (0, 59)]

/-- `croniter_hash._hash_do` for hash type `H`:
`((crc >> position) % (range_end - range_begin + 1)) + range_begin`. -/
def hashDo (crc position range_begin range_end : ℕ) : ℕ :=
  ((crc >>> position) % (range_end - range_begin + 1)) + range_begin

/-- `croniter_hash._hash_expand_item` restricted to the token forms reached
by the claims: a bare `H` resolves through `_hash_do` at the field's full
range; every other reached token (`*`, digits) falls through unchanged.
(The `H(a-b)`, `H/n` and `R` forms are not exercised by any claim.) -/
def hashExpandItem (item : String) (crc : ℕ) (idx : ℕ) : String :=
  if item = "H" then
    let rg := cronRanges.getD idx (0, 0)
    String.mk (encNat (hashDo crc idx rg.1 rg.2))
  else item

/-- `croniter_hash._hash_expand`: expand every field at its index. -/
def hashExpand (fields : List String) (crc : ℕ) : List String :=
  mapWithIdx (fun i item => hashExpandItem item crc i) fields 0

/-- daemon.py lines 69-70: a five-field schedule gets a sixth field `H`. -/
def gnstFields (schedule : String) : List String :=
  let fs := pySplitSpace schedule
  if fs.length = 5 then fs ++ ["H"] else fs

/-- Parse a token that is a pure decimal numeral. -/
def decTok (s : String) : Option ℕ :=
  match s.data with
  | [] => none
  | c :: tl =>
    if isDigitCh c then
      let p := parseNatFrom (c :: tl) 0
      if p.2 = [] then some p.1 else none
    else none

/-- Recognize an expanded six-field expression of the shape
`m * * * * s` (fixed minute and second, all other fields wildcards) —
the shape produced by the claims' schedules. -/
def decodeSimpleMS : List String → Option (ℕ × ℕ)
  | [m, f2, f3, f4, f5, sec] =>
    if f2 = "*" ∧ f3 = "*" ∧ f4 = "*" ∧ f5 = "*" then
      match decTok m, decTok sec with
      | some mv, some sv => if mv < 60 ∧ sv < 60 then some (mv, sv) else none
      | _, _ => none
    else none
  | _ => none

/-- croniter `get_next` for an expression fixing minute `m` and second `s`
with every other field a wildcard: the least whole second strictly after
`tSec` whose in-hour position is `60*m + s` (proved least in
`cronNextMS_least` below). -/
def cronNextMS (m s : ℕ) (tSec : ℤ) : ℤ :=
  tSec + (((60 * m + s : ℤ) - tSec - 1) % 3600 + 1)

/-- The cron branch of `get_next_schedule_time` (daemon.py lines 67-76) for
the schedule shapes reached by the claims: append `H` to five-field
expressions, hash-expand with `crc32(job_name)`, iterate with croniter from
`start_time` (whole-second grid, strictly after the microsecond anchor) and
add the sub-second offset.  `none` marks expression shapes outside the
embedded fragment. -/
def getNextScheduleTimeCron (schedule name : String) (startUs : ℤ) : Option ℤ :=
  let crc := crc32Name name
  match decodeSimpleMS (hashExpand (gnstFields schedule) crc) with
  | none => none
  | some ms =>
    some (cronNextMS ms.1 ms.2 (startUs / 1000000) * 1000000 + (subsecondOffsetUs crc : ℤ))

/-- The fire sequence from anchor 0 (`2020-01-01T00:00:00`): each
subsequent fire re-anchors at the previous result. -/
def fireSeq (schedule name : String) : ℕ → Option ℤ
  | 0 => getNextScheduleTimeCron schedule name 0
  | k + 1 =>
    match fireSeq schedule name k with
    | none => none
    | some t => getNextScheduleTimeCron schedule name t

/-! ### Scheduler data model (dsari/__init__.py lines 45-95)

`gid`/`jid`/`rid` model Python object identity (none of these classes
defines `__eq__`, so `==`/`in` compare identity; distinct objects receive
distinct identity numbers). -/

structure ConcurrencyGroup : Type where
  gid : ℕ
  name : String
  max : ℕ
deriving DecidableEq

structure Job : Type where
  jid : ℕ
  name : String
  concurrent_runs : Bool
  concurrency_groups : List ConcurrencyGroup
  schedule : Option String
deriving DecidableEq

structure Run : Type where
  rid : ℕ
  job : Job
  respawn : Bool
  trigger_type : String
  trigger_data : JVal
  schedule_time : ℤ
  concurrency_group : Option ConcurrencyGroup
deriving DecidableEq

/-- Lookup in a JSON object (Python `dict` indexing / `in`). -/
def jlookup : JObj → List Char → Option JVal
  | .onil, _ => none
  | .ocons k v tl, key => if k = key then some v else jlookup tl key

/-- daemon.py lines 557-559: `environment` present but not a dict. -/
def envNotDict (kvs : JObj) : Bool :=
  match jlookup kvs ("environment").data with
  | some (.jobj _) => false
  | some _ => true
  | none => false

/-- daemon.py lines 561-572: the effective `schedule_time` of a trigger.
A numeric value is epoch seconds (`epoch_to_dt(float(...))`); a string goes
through `dateutil.parser.parse`, modelled by the oracle `parseDT`;
absence keeps the file mtime.  (For any other value type the source would
raise an uncaught `TypeError` inside `dateutil.parser.parse`; that case,
reached by no claim, is modelled as a parse failure.) -/
def triggerScheduleTime (kvs : JObj) (mtimeUs : ℤ) (parseDT : List Char → Option ℤ) :
    Option ℤ :=
  match jlookup kvs ("schedule_time").data with
  | none => some mtimeUs
  | some (.jnum n) => some (n * 1000000)
  | some (.jstr s) => parseDT s
  | some _ => none

/-- `Scheduler.process_trigger_job` (daemon.py lines 531-580), given the
parsed content of an existing, readable and deletable trigger file
(`content = none` models a `json.load` failure).  On every validation
failure the scheduled list is left unchanged; otherwise a new run with
`respawn=False`, `trigger_type='file'` and the parsed trigger data is
appended to `scheduled_runs`. -/
def processTriggerJob (scheduled : List Run) (job : Job) (content : Option JVal)
    (mtimeUs : ℤ) (parseDT : List Char → Option ℤ) (freshId : ℕ) : List Run :=
  match content with
  | none => scheduled
  | some j =>
    match j with
    | .jobj kvs =>
      if envNotDict kvs then scheduled
      else
        match triggerScheduleTime kvs mtimeUs parseDT with
        | none => scheduled
        | some t => scheduled ++ [⟨freshId, job, false, "file", j, t, none⟩]
    | _ => scheduled

/-! ### Scheduler state machine (daemon.py `Scheduler`)

State and steps of the scheduler loop as far as the in-memory run sets are
concerned: trigger intake (`process_triggers`), admission
(`process_scheduled_run`), child reaping (`process_next_child`), shutdown
(`begin_shutdown`) and reload (`signal_handler` SIGHUP →
`load_config`/`reset_jobs`).  `running_groups` is the dict of per-group run
lists, total with default `[]` (the source initializes a key lazily before
use, which is the identity here). -/

structure SchedState : Type where
  running_runs : List Run
  running_groups : ConcurrencyGroup → List Run
  scheduled_runs : List Run
  shutdown : Bool

/-- `Scheduler.__init__`: no running runs, empty group buckets, an initial
scheduled list built by `reset_jobs`. -/
def initState (sched0 : List Run) : SchedState :=
  ⟨[], fun _ => [], sched0, false⟩

/-- In-place mutation `run.respawn = False`, applied to a run value. -/
def clearRespawn (r : Run) : Run := { r with respawn := false }

/-- Admission's group bookkeeping: append the admitted run to its chosen
group's bucket (daemon.py lines 749-750). -/
def addToGroup (rg : ConcurrencyGroup → List Run) (go : Option ConcurrencyGroup)
    (r : Run) : ConcurrencyGroup → List Run :=
  match go with
  | none => rg
  | some cg => Function.update rg cg (rg cg ++ [r])

/-- Reaping's group bookkeeping (daemon.py lines 521-522): remove the run
from its group's bucket when present. -/
def removeFromGroup (rg : ConcurrencyGroup → List Run) (r : Run) :
    ConcurrencyGroup → List Run :=
  match r.concurrency_group with
  | none => rg
  | some cg => if r ∈ rg cg then Function.update rg cg ((rg cg).erase r) else rg

/-- daemon.py lines 751-757: after admitting a respawn run of a scheduled
job, queue the successor (fresh run object, `respawn=True`,
`trigger_type='schedule'`, next schedule time `t`). -/
def respawnExtend (base : List Run) (r : Run) (freshId : ℕ) (t : ℤ) : List Run :=
  if r.respawn = true ∧ r.job.schedule ≠ none then
    base ++ [⟨freshId, r.job, true, "schedule", .jobj .onil, t, none⟩]
  else base

/-- One scheduler transition.  Branches of the source that do not change
the run sets (deferrals with back-off, max-execution signalling, status
dumps, wake-up bookkeeping) are identity steps and are omitted; the reload
step over-approximates the rebuilt `scheduled_runs` as an arbitrary list
(its contents are re-guarded at admission and play no part in the
invariants). -/
inductive SchedStep : SchedState → SchedState → Prop
  | trigger (s : SchedState) (job : Job) (content : Option JVal) (mtimeUs : ℤ)
      (parseDT : List Char → Option ℤ) (freshId : ℕ)
      (hsd : s.shutdown = false) :
      SchedStep s { s with
        scheduled_runs := processTriggerJob s.scheduled_runs job content mtimeUs parseDT freshId }
  | admitRun (s : SchedState) (r : Run) (go : Option ConcurrencyGroup)
      (freshId : ℕ) (t : ℤ)
      (hr : r ∈ s.scheduled_runs)
      (hguard : r.job.concurrent_runs = true ∨
        ∀ x ∈ s.running_runs, x.job ≠ r.job ∧ x.job.name ≠ r.job.name)
      (hgo : (r.job.concurrency_groups = [] ∧ go = none) ∨
        ∃ cg ∈ r.job.concurrency_groups, go = some cg ∧
          (s.running_groups cg).length < cg.max) :
      SchedStep s
        { running_runs := s.running_runs ++ [{ r with concurrency_group := go }],
          running_groups := addToGroup s.running_groups go { r with concurrency_group := go },
          scheduled_runs := respawnExtend (s.scheduled_runs.erase r) r freshId t,
          shutdown := s.shutdown }
  | reap (s : SchedState) (r : Run) (hr : r ∈ s.running_runs) :
      SchedStep s
        { running_runs := s.running_runs.erase r,
          running_groups := removeFromGroup s.running_groups r,
          scheduled_runs := s.scheduled_runs,
          shutdown := s.shutdown }
  | beginShutdown (s : SchedState) :
      SchedStep s
        { running_runs := s.running_runs.map clearRespawn,
          running_groups := fun g => (s.running_groups g).map clearRespawn,
          scheduled_runs := [],
          shutdown := true }
  | reload (s : SchedState) (newSched : List Run) (hsd : s.shutdown = false) :
      SchedStep s
        { running_runs := s.running_runs.map clearRespawn,
          running_groups := fun g => (s.running_groups g).map clearRespawn,
          scheduled_runs := newSched,
          shutdown := s.shutdown }

/-- States reachable from some freshly initialized scheduler. -/
def SchedReachable (s : SchedState) : Prop :=
  ∃ sched0, Relation.ReflTransGen SchedStep (initState sched0) s

/-- Number of running runs whose chosen concurrency group is `g`. -/
def groupLoad (s : SchedState) (g : ConcurrencyGroup) : ℕ :=
  (s.running_runs.filter (fun r => r.concurrency_group = some g)).length

/-- Number of running runs of job `j`. -/
def jobLoad (s : SchedState) (j : Job) : ℕ :=
  (s.running_runs.filter (fun r => r.job = j)).length

/-- The inductive invariant of the scheduler's run bookkeeping: every
group bucket is exactly the running runs that chose that group, every
group is within capacity, and non-concurrent jobs have at most one
running run. -/
def SchedInv (s : SchedState) : Prop :=
  (∀ g, s.running_groups g
      = s.running_runs.filter (fun r => r.concurrency_group = some g)) ∧
  (∀ g : ConcurrencyGroup, groupLoad s g ≤ g.max) ∧
  (∀ j : Job, j.concurrent_runs = false → jobLoad s j ≤ 1)

/-! ### Child environment (`Scheduler.run_child_executor`, daemon.py
lines 370-472)

The environment is an association list built by successive dict
assignments; `envSet` models `environ[k] = v` (replace the value if the key
exists, else append). -/

def envSet (env : List (String × String)) (k v : String) : List (String × String) :=
  if env.any (fun p => p.1 = k) then
    env.map (fun p => if p.1 = k then (k, v) else p)
  else env ++ [(k, v)]

def envSetAll (env : List (String × String)) (kvs : List (String × String)) :
    List (String × String) :=
  kvs.foldl (fun e p => envSet e p.1 p.2) env

def envLookup (env : List (String × String)) (k : String) : Option String :=
  (env.find? (fun p => p.1 = k)).map (fun p => p.2)

/-- `os.path.join` on relative components. -/
def pathJoin (xs : List String) : String := String.intercalate "/" xs

/-- Decimal rendering of a microsecond instant for `str(dt_to_epoch(...))`
(the daemon passes epoch seconds as a string; the exact float formatting of
CPython is not modelled — no claim depends on the rendered text). -/
def epochStr (tUs : ℤ) : String := String.mk (encInt tUs)

/-- Snapshot of a previous run used for the `PREVIOUS*` variables. -/
structure PrevRunCtx : Type where
  id : String
  schedule_time : ℤ
  start_time : ℤ
  stop_time : ℤ
  exit_code : ℤ

/-- The job fields read by `run_child_executor`. -/
structure ChildJob : Type where
  name : String
  environment : List (String × String)
  job_group : Option String
  jenkins_environment : Bool

/-- The run fields read by `run_child_executor`. -/
structure ChildRun : Type where
  id : String
  schedule_time : ℤ
  start_time : ℤ
  trigger_type : String
  concurrency_group : Option String
  previous_run : Option PrevRunCtx
  previous_good_run : Option PrevRunCtx
  previous_bad_run : Option PrevRunCtx
  trigger_env : Option (List (String × String))

/-- Ambient inputs of `run_child_executor`: the passwd entry (if resolvable),
the inherited `PATH` (if present), the data directory, the global config
environment and the `os.path.isdir` oracle used for the `PWD` override. -/
structure ChildCtx : Type where
  pwd_entry : Option (String × String)
  os_path : Option String
  data_dir : String
  config_env : List (String × String)
  pwd_isdir : String → Bool

/-- The run-context prefix of the environment (daemon.py lines 384-403):
base passwd/PATH entries, then `DATA_DIR`, `JOB_NAME`, `RUN_ID`, `RUN_DIR`,
`SCHEDULE_TIME`, `START_TIME`, `TRIGGER_TYPE`. -/
def envBase (ctx : ChildCtx) (job : ChildJob) (run : ChildRun) :
    List (String × String) :=
  let e1 := match ctx.pwd_entry with
    | some pe => envSet (envSet [] "LOGNAME" pe.1) "HOME" pe.2
    | none => []
  let e2 := match ctx.os_path with
    | some p => envSet e1 "PATH" p
    | none => envSet e1 "PATH" "/usr/bin:/bin"
  let e3 := envSet e2 "DATA_DIR" ctx.data_dir
  let e4 := envSet e3 "JOB_NAME" job.name
  let e5 := envSet e4 "RUN_ID" run.id
  let runDir := pathJoin [ctx.data_dir, "runs", job.name, run.id]
  let e6 := envSet e5 "RUN_DIR" runDir
  let e7 := envSet e6 "SCHEDULE_TIME" (epochStr run.schedule_time)
  let e8 := envSet e7 "START_TIME" (epochStr run.start_time)
  envSet e8 "TRIGGER_TYPE" run.trigger_type

/-- The remainder of the environment construction (daemon.py lines 404-441
and the `PWD` assignment of lines 460-464), applied after `envBase`. -/
def envFinish (ctx : ChildCtx) (job : ChildJob) (run : ChildRun)
    (e9 : List (String × String)) : List (String × String) :=
  let runDir := pathJoin [ctx.data_dir, "runs", job.name, run.id]
  let e10 := match run.concurrency_group with
    | some gname => envSet e9 "CONCURRENCY_GROUP" gname
    | none => e9
  let e11 := match run.previous_run with
    | some pr => envSetAll e10
        [("PREVIOUS_RUN_ID", pr.id),
         ("PREVIOUS_SCHEDULE_TIME", epochStr pr.schedule_time),
         ("PREVIOUS_START_TIME", epochStr pr.start_time),
         ("PREVIOUS_STOP_TIME", epochStr pr.stop_time),
         ("PREVIOUS_EXIT_CODE", String.mk (encInt pr.exit_code))]
    | none => e10
  let e12 := match run.previous_good_run with
    | some pr => envSetAll e11
        [("PREVIOUS_GOOD_RUN_ID", pr.id),
         ("PREVIOUS_GOOD_SCHEDULE_TIME", epochStr pr.schedule_time),
         ("PREVIOUS_GOOD_START_TIME", epochStr pr.start_time),
         ("PREVIOUS_GOOD_STOP_TIME", epochStr pr.stop_time),
         ("PREVIOUS_GOOD_EXIT_CODE", String.mk (encInt pr.exit_code))]
    | none => e11
  let e13 := match run.previous_bad_run with
    | some pr => envSetAll e12
        [("PREVIOUS_BAD_RUN_ID", pr.id),
         ("PREVIOUS_BAD_SCHEDULE_TIME", epochStr pr.schedule_time),
         ("PREVIOUS_BAD_START_TIME", epochStr pr.start_time),
         ("PREVIOUS_BAD_STOP_TIME", epochStr pr.stop_time),
         ("PREVIOUS_BAD_EXIT_CODE", String.mk (encInt pr.exit_code))]
    | none => e12
  let e14 := match job.job_group with
    | some gname => envSet e13 "JOB_GROUP" gname
    | none => e13
  let e15 := if job.jenkins_environment then
      envSetAll e14
        [("BUILD_NUMBER", run.id),
         ("BUILD_ID", run.id),
         ("BUILD_URL", "file://" ++ pathJoin [ctx.data_dir, "runs", job.name, run.id, ""]),
         ("NODE_NAME", "master"),
         ("BUILD_TAG", "dsari-" ++ job.name ++ "-" ++ run.id),
         ("JENKINS_URL", "file://" ++ pathJoin [ctx.data_dir, ""]),
         ("EXECUTOR_NUMBER", "0"),
         ("WORKSPACE", pathJoin [ctx.data_dir, "runs", job.name, run.id])]
    else e14
  let e16 := envSetAll e15 ctx.config_env
  let e17 := envSetAll e16 job.environment
  let e18 := match run.trigger_env with
    | some te => envSetAll e17 te
    | none => e17
  let runPwd := match envLookup e18 "PWD" with
    | some p => if ctx.pwd_isdir p then p else runDir
    | none => runDir
  envSet e18 "PWD" runPwd

/-- The environment dict handed to `os.execvpe` (daemon.py lines 384-441
and the `PWD` assignment of lines 460-464). -/
def buildEnviron (ctx : ChildCtx) (job : ChildJob) (run : ChildRun) :
    List (String × String) :=
  envFinish ctx job run (envBase ctx job run)

/-! ### Persistence (`database.py`: `BaseSQLDatabase` with the
`SQLite3Database` backend, the configured default)

A table is a list of rows in insertion order.  The SQLite backend stores
instants as `REAL` epoch seconds (`SQLite3Database._build_insert`,
lines 579-595, applies `dt_to_epoch` to the three time columns) and the
structured data columns as JSON text.  `dt_to_epoch` / `epoch_to_dt` are
absent from `src/dsari/utils.py`; both carry a `Modelled from the spec`
note. -/

/-- Modelled from the spec: `dt_to_epoch` — convert a (microsecond) datetime
to floating-point seconds since the epoch (spec §4.2: "Instants are stored
as … floating-point seconds-since-epoch"). -/
def dtToEpoch (tUs : ℤ) : ℚ := (tUs : ℚ) / 1000000

/-- Modelled from the spec: `epoch_to_dt` — convert float epoch seconds back
to a microsecond datetime (CPython quantizes to whole microseconds,
rounding half to even). -/
def epochToDt (q : ℚ) : ℤ := roundHalfEven (q * 1000000)

/-- The job fields relevant to the store (`get_runs` resolves each row's
`job_name` against the config's jobs, faking a stub job otherwise). -/
structure DBJob : Type where
  name : String
deriving DecidableEq

/-- A finished `dsari.Run` as handed to `insert_run`, restricted to the
persisted fields (the daemon only inserts terminal runs, whose time and
exit-code attributes are all set). -/
structure DBRun : Type where
  job : DBJob
  id : String
  schedule_time : ℤ
  start_time : ℤ
  stop_time : ℤ
  exit_code : ℤ
  trigger_type : String
  trigger_data : JVal
  run_data : JVal
deriving DecidableEq

/-- A `dsari.Run` as freshly rebuilt by `_build_run_from_result`: the
constructor `dsari.Run(job, id=...)` leaves `schedule_time`, `start_time`,
`stop_time` and `exit_code` at `None`, and the rebuild sets each of them
only conditionally. -/
structure DBRunOut : Type where
  job : DBJob
  id : String
  schedule_time : Option ℤ
  start_time : Option ℤ
  stop_time : Option ℤ
  exit_code : Option ℤ
  trigger_type : String
  trigger_data : JVal
  run_data : JVal
deriving DecidableEq

/-- A row of the `runs` table (SQLite column affinities: text, text, real,
real, real, integer, text, text, text). -/
structure DBRow : Type where
  job_name : String
  run_id : String
  schedule_time : ℚ
  start_time : ℚ
  stop_time : ℚ
  exit_code : ℤ
  trigger_type : String
  trigger_data : List Char
  run_data : List Char
deriving DecidableEq

/-- `SQLite3Database._build_insert` applied to `insert_run`'s column pairs:
times through `dt_to_epoch`, data through `json.dumps`, the rest verbatim. -/
def buildInsertRow (r : DBRun) : DBRow :=
  ⟨r.job.name, r.id, dtToEpoch r.schedule_time, dtToEpoch r.start_time,
   dtToEpoch r.stop_time, r.exit_code, r.trigger_type,
   dumpJ r.trigger_data, dumpJ r.run_data⟩

/-- `BaseSQLDatabase.insert_run` (database.py lines 226-267): append the
terminal row to `runs` and delete the matching `runs_running` rows. -/
def insertRun (runs running : List DBRow) (r : DBRun) : List DBRow × List DBRow :=
  (runs ++ [buildInsertRow r], running.filter (fun w => !(w.run_id == r.id)))

/-- Resolve a row's job name against the config (database.py lines
320-331): a configured job when present, otherwise a stub job carrying just
the name. -/
def findCfgJob (cfg : List DBJob) (n : String) : DBJob :=
  match cfg.find? (fun j => j.name == n) with
  | some j => j
  | none => ⟨n⟩

/-- `k in f` for an `sqlite3.Row` `f` (the SQLite backend's `row_factory`):
membership on `sqlite3.Row` iterates the row's *values*, not its column
names.  A `str` key can only equal one of the row's TEXT values (Python
`==` between a `str` and a `float`/`int` is `False`), so membership holds
exactly when `k` equals `job_name`, `run_id`, `trigger_type` or one of the
two JSON text columns. -/
def rowHasStrValue (f : DBRow) (k : String) : Bool :=
  k == f.job_name || k == f.run_id || k == f.trigger_type ||
    k.data == f.trigger_data || k.data == f.run_data

/-- `BaseSQLDatabase._build_run_from_result` (database.py lines 92-109) for
rows coming from the SQLite backend.  For each of `schedule_time`,
`start_time`, `stop_time` the source does `if k not in f: continue` and for
the exit code `if 'exit_code' in f` — on an `sqlite3.Row` these test the
row's values (see `rowHasStrValue`), so each of the four fields is copied
only when the field's name happens to be one of the row's text values, and
is left at the constructor's `None` otherwise.  When a time field is
copied, its REAL value goes through `epoch_to_dt`.  `trigger_type` is
copied unconditionally and the data columns go through `json.loads` (which
raises on malformed text — modelled as `none`). -/
def buildRunFromResult (job : DBJob) (f : DBRow) : Option DBRunOut :=
  match loadJ f.trigger_data, loadJ f.run_data with
  | some td, some rd =>
    some ⟨job, f.run_id,
          if rowHasStrValue f "schedule_time" then some (epochToDt f.schedule_time) else none,
          if rowHasStrValue f "start_time" then some (epochToDt f.start_time) else none,
          if rowHasStrValue f "stop_time" then some (epochToDt f.stop_time) else none,
          if rowHasStrValue f "exit_code" then some f.exit_code else none,
          f.trigger_type, td, rd⟩
  | _, _ => none

/-- The `WHERE` clause of `BaseSQLDatabase.get_runs` (database.py lines
284-292): a run-id set takes precedence, then a job-name set, else no
filter. -/
def selectRows (rows : List DBRow) (job_names : Option (List String))
    (run_ids : Option (List String)) : List DBRow :=
  match run_ids with
  | some ids => rows.filter (fun w => ids.contains w.run_id)
  | none =>
    match job_names with
    | some jns => rows.filter (fun w => jns.contains w.job_name)
    | none => rows

/-- `BaseSQLDatabase.get_runs` (database.py lines 283-334): select, then
rebuild each row against the config's jobs. -/
def getRuns (rows : List DBRow) (cfg : List DBJob) (job_names : Option (List String))
    (run_ids : Option (List String)) : Option (List DBRunOut) :=
  (selectRows rows job_names run_ids).mapM
    (fun w => buildRunFromResult (findCfgJob cfg w.job_name) w)

/-- The persisted fields of an inserted run, as `dsari.Run` attributes
(every one of them set). -/
def persistedFieldsSome (r : DBRun) :
    String × String × Option ℤ × Option ℤ × Option ℤ × Option ℤ ×
      String × JVal × JVal :=
  (r.job.name, r.id, some r.schedule_time, some r.start_time,
   some r.stop_time, some r.exit_code, r.trigger_type, r.trigger_data,
   r.run_data)

/-- The persisted fields of a rebuilt run. -/
def persistedFieldsOut (r : DBRunOut) :
    String × String × Option ℤ × Option ℤ × Option ℤ × Option ℤ ×
      String × JVal × JVal :=
  (r.job.name, r.id, r.schedule_time, r.start_time, r.stop_time,
   r.exit_code, r.trigger_type, r.trigger_data, r.run_data)

/-! ### Concrete instances used by the claim theorems -/

/-- A job forbidding concurrent runs, with a schedule (trigger scenario). -/
def cJob5 : Job := ⟨1, "trigjob", false, [], some "* * * * *"⟩

/-- A queued respawn run of `cJob5`. -/
def cRespawnRun : Run := ⟨11, cJob5, true, "schedule", .jobj .onil, 0, none⟩

/-- A valid trigger payload (a dict with one unrecognized key). -/
def cTrigKvs : JObj := .ocons ("note").data (.jstr ("hi").data) .onil

def cTrigData : JVal := .jobj cTrigKvs

/-- The run that `process_trigger_job` creates for `cTrigData`. -/
def cTrigNewRun : Run := ⟨12, cJob5, false, "file", cTrigData, 5000000, none⟩

/-- A job with no concurrency groups that forbids concurrent runs. -/
def wJob : Job := ⟨2, "wjob", false, [], none⟩

/-- A due file-triggered run of `wJob`. -/
def wRun : Run := ⟨21, wJob, false, "file", .jobj .onil, 0, none⟩

/-- A concurrency group of capacity 1. -/
def wGroup : ConcurrencyGroup := ⟨3, "wgroup", 1⟩

/-- The scheduler state after admitting `wRun` from `initState [wRun]`. -/
def wState : SchedState := ⟨[wRun], fun _ => [], [], false⟩

/-- Config jobs for the persistence round trip. -/
def c3cfg : List DBJob := [⟨"job1"⟩]

/-- A finished run with every persisted field set (trigger data carries a
nested environment mapping). -/
def c3run : DBRun :=
  ⟨⟨"job1"⟩, "run-1", 1577836800000000, 1577836801250000, 1577836802500001, 0,
   "schedule",
   .jobj (.ocons ("environment").data
     (.jobj (.ocons ("FOO").data (.jstr ("bar").data) .onil)) .onil),
   .jobj .onil⟩

/-- Child-executor inputs with no user-supplied environment at all. -/
def c6ctx : ChildCtx := ⟨none, none, "/var/lib/dsari", [], fun _ => false⟩

def c6job : ChildJob := ⟨"j1", [], none, false⟩

def c6run : ChildRun := ⟨"r1", 0, 1000000, "schedule", none, none, none, none, none⟩

/-- A trigger file whose `schedule_time` entry is absent (so the file's
mtime is kept); the string parser is never consulted. -/
def noParseDT : List Char → Option ℤ := fun _ => none

/-! ## Theorems

General-purpose lemmas first (rounding, decimal rendering, the JSON round
trip, state-machine invariants), then one theorem per claim, each with its
witness or counterexample. -/

theorem roundHalfEven_intCast (n : ℤ) : roundHalfEven ((n : ℚ)) = n := by
  have h1 : n / 1 = n := Int.ediv_one n
  simp [roundHalfEven, Rat.intCast_num, Rat.intCast_den, h1]

theorem dtToEpoch_roundtrip (t : ℤ) : epochToDt (dtToEpoch t) = t := by
  have h : dtToEpoch t * 1000000 = ((t : ℚ)) := by
    unfold dtToEpoch
    field_simp
  rw [epochToDt, h, roundHalfEven_intCast]

theorem digitCh_toNat : ∀ d, d < 10 → (digitCh d).toNat = 48 + d := by decide

theorem isDigitCh_digitCh : ∀ d, d < 10 → isDigitCh (digitCh d) = true := by decide

theorem natDigitsRevAux_val : ∀ fuel n, n ≤ fuel →
    vOfDigitsRev (natDigitsRevAux fuel n) = n := by
  intro fuel
  induction fuel with
  | zero =>
    intro n h
    interval_cases n
    simp [natDigitsRevAux, vOfDigitsRev]
  | succ f ih =>
    intro n h
    by_cases h0 : n = 0
    · simp [natDigitsRevAux, h0, vOfDigitsRev]
    · have hdiv : n / 10 ≤ f := by omega
      simp [natDigitsRevAux, h0, vOfDigitsRev, ih _ hdiv]
      omega

theorem natDigitsRevAux_lt : ∀ fuel n d, d ∈ natDigitsRevAux fuel n → d < 10 := by
  intro fuel
  induction fuel with
  | zero => intro n d hd; simp [natDigitsRevAux] at hd
  | succ f ih =>
    intro n d hd
    by_cases h0 : n = 0
    · simp [natDigitsRevAux, h0] at hd
    · simp [natDigitsRevAux, h0] at hd
      rcases hd with hd | hd
      · omega
      · exact ih _ _ hd

theorem encNat_all_digit (n : ℕ) : ∀ c ∈ encNat n, isDigitCh c = true := by
  intro c hc
  by_cases h0 : n = 0
  · simp [encNat, h0] at hc
    subst hc
    decide
  · simp [encNat, h0] at hc
    obtain ⟨d, hd, rfl⟩ := hc
    exact isDigitCh_digitCh d (natDigitsRevAux_lt _ _ d hd)

theorem encNat_ne_nil (n : ℕ) : encNat n ≠ [] := by
  by_cases h0 : n = 0
  · simp [encNat, h0]
  · obtain ⟨m, rfl⟩ := Nat.exists_eq_succ_of_ne_zero h0
    simp [encNat, natDigitsRev, natDigitsRevAux]

theorem parseNatFrom_stop (rest : List Char) (acc : ℕ) (h : noDigitHead rest = true) :
    parseNatFrom rest acc = (acc, rest) := by
  cases rest with
  | nil => rfl
  | cons c tl =>
    simp [noDigitHead] at h
    simp [parseNatFrom, h]

theorem parseNatFrom_digits : ∀ (ds : List ℕ) (acc : ℕ) (rest : List Char),
    (∀ d ∈ ds, d < 10) →
    parseNatFrom (ds.map digitCh ++ rest) acc
      = parseNatFrom rest (ds.foldl (fun a d => a * 10 + d) acc) := by
  intro ds
  induction ds with
  | nil => intro acc rest _; rfl
  | cons d tl ih =>
    intro acc rest h
    have hd : d < 10 := h d (by simp)
    have htl : ∀ x ∈ tl, x < 10 := fun x hx => h x (by simp [hx])
    have hstep : parseNatFrom ((digitCh d :: List.map digitCh tl) ++ rest) acc
        = parseNatFrom (List.map digitCh tl ++ rest) (acc * 10 + d) := by
      simp [parseNatFrom, isDigitCh_digitCh d hd, digitCh_toNat d hd,
        Nat.add_sub_cancel_left]
    simp only [List.map_cons, List.cons_append] at hstep ⊢
    rw [hstep, ih _ rest htl, List.foldl_cons]

theorem foldl_digits_rev : ∀ (ds : List ℕ) (acc : ℕ),
    ds.reverse.foldl (fun a d => a * 10 + d) acc
      = acc * 10 ^ ds.length + vOfDigitsRev ds := by
  intro ds
  induction ds with
  | nil => intro acc; simp [vOfDigitsRev]
  | cons d tl ih =>
    intro acc
    simp [List.reverse_cons, List.foldl_append, ih, vOfDigitsRev, pow_succ]
    ring

theorem parseNatFrom_encNat (n : ℕ) (rest : List Char) (h : noDigitHead rest = true) :
    parseNatFrom (encNat n ++ rest) 0 = (n, rest) := by
  by_cases h0 : n = 0
  · subst h0
    have : parseNatFrom (encNat 0 ++ rest) 0 = parseNatFrom rest 0 := by
      simp [encNat, parseNatFrom, digitCh, isDigitCh]
    rw [this, parseNatFrom_stop rest 0 h]
  · simp only [encNat, if_neg h0]
    have hds : ∀ d ∈ (natDigitsRev n).reverse, d < 10 := by
      intro d hd
      exact natDigitsRevAux_lt n n d (List.mem_reverse.mp hd)
    rw [parseNatFrom_digits _ 0 rest hds]
    rw [parseNatFrom_stop rest _ h]
    rw [foldl_digits_rev]
    simp [natDigitsRev, natDigitsRevAux_val n n le_rfl]

theorem natDivRoundHalfEven_close (a b : ℕ) (hb : 0 < b) :
    |(natDivRoundHalfEven a b : ℚ) - (a : ℚ) / b| ≤ 1 / 2 := by
  have hbq : (0 : ℚ) < (b : ℚ) := by exact_mod_cast hb
  have hbne : (b : ℚ) ≠ 0 := ne_of_gt hbq
  have hmod : (a : ℚ) = (b : ℚ) * ((a / b : ℕ) : ℚ) + ((a % b : ℕ) : ℚ) := by
    exact_mod_cast (Nat.div_add_mod a b).symm
  have hdiv : (a : ℚ) / b = ((a / b : ℕ) : ℚ) + ((a % b : ℕ) : ℚ) / b := by
    rw [hmod]
    field_simp
    ring
  have hr0 : (0 : ℚ) ≤ ((a % b : ℕ) : ℚ) / b := by positivity
  have hrlt : ((a % b : ℕ) : ℚ) / b < 1 := by
    rw [div_lt_one hbq]
    exact_mod_cast Nat.mod_lt a hb
  have hhalf : ∀ r : ℕ, 2 * r ≤ b → ((r : ℚ)) / b ≤ 1 / 2 := by
    intro r hr
    rw [div_le_div_iff₀ hbq (by norm_num)]
    have : ((2 * r : ℕ) : ℚ) ≤ (b : ℚ) := by exact_mod_cast hr
    push_cast at this ⊢
    linarith
  have hhalf' : ∀ r : ℕ, b ≤ 2 * r → 1 / 2 ≤ ((r : ℚ)) / b := by
    intro r hr
    rw [div_le_div_iff₀ (by norm_num) hbq]
    have : ((b : ℕ) : ℚ) ≤ ((2 * r : ℕ) : ℚ) := by exact_mod_cast hr
    push_cast at this ⊢
    linarith
  rw [hdiv]
  simp only [natDivRoundHalfEven]
  split_ifs with h1 h2 h3
  · have := hhalf (a % b) (by omega)
    rw [abs_le]
    constructor <;> linarith
  · have := hhalf' (a % b) (by omega)
    rw [abs_le]
    constructor <;> push_cast <;> linarith
  · have hle := hhalf (a % b) (by omega)
    have hge := hhalf' (a % b) (by omega)
    rw [abs_le]
    constructor <;> linarith
  · have hle := hhalf (a % b) (by omega)
    have hge := hhalf' (a % b) (by omega)
    rw [abs_le]
    constructor <;> push_cast <;> linarith

theorem isDigitCh_range (c : Char) (hc : isDigitCh c = true) :
    48 ≤ c.toNat ∧ c.toNat ≤ 57 := by
  simpa [isDigitCh] using hc

theorem digit_ne_cMinus (c : Char) (hc : isDigitCh c = true) : (c = cMinus) = False := by
  have h := isDigitCh_range c hc
  simp only [eq_iff_iff, iff_false]
  intro he
  have : c.toNat = cMinus.toNat := by rw [he]
  have h45 : cMinus.toNat = 45 := by decide
  omega

theorem stripLead_pre (pre s : List Char) : stripLead pre (pre ++ s) = some s := by
  induction pre with
  | nil => rfl
  | cons c tl ih => simp [stripLead, ih]

theorem parseJNum_minus (tl : List Char) (c2 : Char) (cs : List Char)
    (h2 : tl = c2 :: cs) (hd : isDigitCh c2 = true) :
    parseJNum (cMinus :: tl)
      = some (-(((parseNatFrom tl 0).1 : ℤ)), (parseNatFrom tl 0).2) := by
  subst h2
  rw [parseJNum.eq_def]
  simp [hd]

theorem parseJNum_digit (c : Char) (tl : List Char) (hd : isDigitCh c = true) :
    parseJNum (c :: tl)
      = some ((((parseNatFrom (c :: tl) 0).1 : ℤ)), (parseNatFrom (c :: tl) 0).2) := by
  have hne := digit_ne_cMinus c hd
  rw [parseJNum.eq_def]
  simp [hd, hne]

theorem parseJNum_encInt (i : ℤ) (rest : List Char) (h : noDigitHead rest = true) :
    parseJNum (encInt i ++ rest) = some (i, rest) := by
  obtain ⟨c, cs, hc, hcd⟩ :
      ∃ c cs, encNat i.natAbs = c :: cs ∧ isDigitCh c = true := by
    cases hnil : encNat i.natAbs with
    | nil => exact absurd hnil (encNat_ne_nil _)
    | cons c cs =>
      exact ⟨c, cs, rfl, encNat_all_digit _ c (by rw [hnil]; simp)⟩
  have hstep : parseNatFrom (encNat i.natAbs ++ rest) 0 = (i.natAbs, rest) :=
    parseNatFrom_encNat _ rest h
  by_cases hneg : i < 0
  · have hshape : encInt i ++ rest = cMinus :: (encNat i.natAbs ++ rest) := by
      simp [encInt, hneg]
    rw [hshape, parseJNum_minus _ c (cs ++ rest) (by rw [hc, List.cons_append]) hcd,
      hstep]
    have : -((i.natAbs : ℤ)) = i := by omega
    rw [this]
  · have hshape : encInt i ++ rest = encNat i.natAbs ++ rest := by
      simp [encInt, hneg]
    rw [hshape, hc, List.cons_append,
      parseJNum_digit c (cs ++ rest) hcd, ← List.cons_append, ← hc, hstep]
    have : ((i.natAbs : ℤ)) = i := by omega
    rw [this]

theorem escStr_cons (c : Char) (tl : List Char) :
    escStr (c :: tl) = escChar c ++ escStr tl := by
  simp [escStr]

theorem parseStrBody_escStr : ∀ (s rest : List Char),
    parseStrBody (escStr s ++ cQuote :: rest) = some (s, rest) := by
  intro s
  induction s with
  | nil =>
    intro rest
    have : escStr [] = [] := by simp [escStr]
    rw [this, List.nil_append, parseStrBody.eq_def]
    simp
  | cons c tl ih =>
    intro rest
    rw [escStr_cons]
    by_cases hesc : c = cQuote ∨ c = cBackslash
    · have hbq : (cBackslash = cQuote) = False := by decide
      have hshape : escChar c = [cBackslash, c] := by simp [escChar, hesc]
      rw [hshape]
      rw [show ([cBackslash, c] ++ escStr tl) ++ cQuote :: rest
          = cBackslash :: c :: (escStr tl ++ cQuote :: rest) from rfl]
      rw [parseStrBody.eq_def]
      simp [hbq, ih rest]
    · push_neg at hesc
      have hshape : escChar c = [c] := by simp [escChar, hesc.1, hesc.2]
      rw [hshape]
      rw [show ([c] ++ escStr tl) ++ cQuote :: rest
          = c :: (escStr tl ++ cQuote :: rest) from rfl]
      rw [parseStrBody.eq_def]
      simp [hesc.1, hesc.2, ih rest]

theorem jMu_pos : ∀ v : JVal, 1 ≤ jMu v := by
  intro v
  cases v <;> simp [jMu]

theorem charNe (c x : Char) (h : c.toNat ≠ x.toNat) : (c = x) = False := by
  simp only [eq_iff_iff, iff_false]
  intro he
  exact h (by rw [he])

theorem ne_special_of_range (c : Char) (h45 : 45 ≤ c.toNat) (h57 : c.toNat ≤ 57) :
    (c = cQuote) = False ∧ (c = cLbrack) = False ∧ (c = cLbrace) = False ∧
    (c = cLowerN) = False ∧ (c = cLowerT) = False ∧ (c = cLowerF) = False ∧
    (c = cRbrack) = False ∧ (c = cRbrace) = False := by
  have hv : cQuote.toNat = 34 ∧ cLbrack.toNat = 91 ∧ cLbrace.toNat = 123 ∧
      cLowerN.toNat = 110 ∧ cLowerT.toNat = 116 ∧ cLowerF.toNat = 102 ∧
      cRbrack.toNat = 93 ∧ cRbrace.toNat = 125 := by decide
  obtain ⟨v1, v2, v3, v4, v5, v6, v7, v8⟩ := hv
  exact ⟨charNe _ _ (by omega), charNe _ _ (by omega), charNe _ _ (by omega),
    charNe _ _ (by omega), charNe _ _ (by omega), charNe _ _ (by omega),
    charNe _ _ (by omega), charNe _ _ (by omega)⟩

theorem encInt_head (i : ℤ) :
    ∃ c cs, encInt i = c :: cs ∧ 45 ≤ c.toNat ∧ c.toNat ≤ 57 := by
  by_cases hneg : i < 0
  · refine ⟨cMinus, encNat i.natAbs, by simp [encInt, hneg], by decide, by decide⟩
  · obtain ⟨c, cs, hc, hcd⟩ :
        ∃ c cs, encNat i.natAbs = c :: cs ∧ isDigitCh c = true := by
      cases hnil : encNat i.natAbs with
      | nil => exact absurd hnil (encNat_ne_nil _)
      | cons c cs =>
        exact ⟨c, cs, rfl, encNat_all_digit _ c (by rw [hnil]; simp)⟩
    obtain ⟨hr1, hr2⟩ := isDigitCh_range c hcd
    exact ⟨c, cs, by simp [encInt, hneg, hc], by omega, hr2⟩

theorem noDigitHead_arrTail (tl : JArr) (rest : List Char) :
    noDigitHead (dumpArrTail tl ++ cRbrack :: rest) = true := by
  cases tl with
  | anil => simp [dumpArrTail, noDigitHead]; decide
  | acons v tl' => simp [dumpArrTail, noDigitHead]; decide

theorem noDigitHead_objTail (tl : JObj) (rest : List Char) :
    noDigitHead (dumpObjTail tl ++ cRbrace :: rest) = true := by
  cases tl with
  | onil => simp [dumpObjTail, noDigitHead]; decide
  | ocons k v tl' => simp [dumpObjTail, noDigitHead]; decide

theorem dumpJ_head (v : JVal) :
    ∃ c cs, dumpJ v = c :: cs ∧ (c = cRbrack) = False := by
  cases v with
  | jnull => exact ⟨cLowerN, ("ull").data, by simp [dumpJ]; decide, by decide⟩
  | jbool b =>
    cases b with
    | true => exact ⟨cLowerT, ("rue").data, by simp [dumpJ]; decide, by decide⟩
    | false => exact ⟨cLowerF, ("alse").data, by simp [dumpJ]; decide, by decide⟩
  | jnum n =>
    obtain ⟨c, cs, hc, h45, h57⟩ := encInt_head n
    refine ⟨c, cs, by simp [dumpJ, hc], ?_⟩
    exact (ne_special_of_range c h45 h57).2.2.2.2.2.2.1
  | jstr s => exact ⟨cQuote, escStr s ++ [cQuote], by simp [dumpJ], by decide⟩
  | jarr xs =>
    cases xs with
    | anil => exact ⟨cLbrack, [cRbrack], by simp [dumpJ], by decide⟩
    | acons v tl =>
      exact ⟨cLbrack, dumpJ v ++ dumpArrTail tl ++ [cRbrack], by simp [dumpJ], by decide⟩
  | jobj kvs =>
    cases kvs with
    | onil => exact ⟨cLbrace, [cRbrace], by simp [dumpJ], by decide⟩
    | ocons k v tl =>
      exact ⟨cLbrace, dumpMember k v ++ dumpObjTail tl ++ [cRbrace], by simp [dumpJ], by decide⟩

theorem parseVal_cons (f : ℕ) (c : Char) (tl : List Char) :
    parseVal (f + 1) (c :: tl) =
      (if c = cQuote then
        match parseStrBody tl with
        | some (str, r) => some (JVal.jstr str, r)
        | none => none
      else if c = cLbrack then
        match tl with
        | [] => none
        | c2 :: tl2 =>
          if c2 = cRbrack then some (JVal.jarr JArr.anil, tl2)
          else
            match parseElems f tl with
            | some (xs, r) => some (JVal.jarr xs, r)
            | none => none
      else if c = cLbrace then
        match tl with
        | [] => none
        | c2 :: tl2 =>
          if c2 = cRbrace then some (JVal.jobj JObj.onil, tl2)
          else
            match parseMembers f tl with
            | some (kvs, r) => some (JVal.jobj kvs, r)
            | none => none
      else if c = cLowerN then (stripLead ("ull").data tl).map (fun r => (JVal.jnull, r))
      else if c = cLowerT then (stripLead ("rue").data tl).map (fun r => (JVal.jbool true, r))
      else if c = cLowerF then (stripLead ("alse").data tl).map (fun r => (JVal.jbool false, r))
      else
        match parseJNum (c :: tl) with
        | some (n, r) => some (JVal.jnum n, r)
        | none => none) := by
  rfl

theorem parseElems_step (f : ℕ) (s : List Char) :
    parseElems (f + 1) s =
      (match parseVal f s with
      | none => none
      | some (v, r) =>
        match r with
        | [] => none
        | c :: tl =>
          if c = cComma then
            match parseElems f tl with
            | some (xs, r2) => some (JArr.acons v xs, r2)
            | none => none
          else if c = cRbrack then some (JArr.acons v JArr.anil, tl)
          else none) := by
  rfl

theorem parseMembers_cons (f : ℕ) (c : Char) (tl : List Char) :
    parseMembers (f + 1) (c :: tl) =
      (if c = cQuote then
        match parseStrBody tl with
        | none => none
        | some (k, r1) =>
          match r1 with
          | [] => none
          | c2 :: tl2 =>
            if c2 = cColon then
              match parseVal f tl2 with
              | none => none
              | some (v, r2) =>
                match r2 with
                | [] => none
                | c3 :: tl3 =>
                  if c3 = cComma then
                    match parseMembers f tl3 with
                    | some (kvs, r3) => some (JObj.ocons k v kvs, r3)
                    | none => none
                  else if c3 = cRbrace then some (JObj.ocons k v JObj.onil, tl3)
                  else none
            else none
      else none) := by
  rfl

mutual
theorem parseVal_dumpJ (v : JVal) : ∀ (fuel : ℕ) (rest : List Char),
    jMu v ≤ fuel → noDigitHead rest = true →
    parseVal fuel (dumpJ v ++ rest) = some (v, rest) := by
  intro fuel rest hmu hnd
  obtain ⟨f, rfl⟩ : ∃ f, fuel = f + 1 := ⟨fuel - 1, by have := jMu_pos v; omega⟩
  cases v with
  | jnull =>
    rw [show dumpJ JVal.jnull = cLowerN :: ("ull").data from by simp [dumpJ]; decide]
    rw [List.cons_append, parseVal_cons]
    simp only [show (cLowerN = cQuote) = False from by decide,
      show (cLowerN = cLbrack) = False from by decide,
      show (cLowerN = cLbrace) = False from by decide,
      if_false, if_pos rfl, if_true, stripLead_pre]
    rfl
  | jbool b =>
    cases b with
    | true =>
      rw [show dumpJ (JVal.jbool true) = cLowerT :: ("rue").data from by simp [dumpJ]; decide]
      rw [List.cons_append, parseVal_cons]
      simp only [show (cLowerT = cQuote) = False from by decide,
        show (cLowerT = cLbrack) = False from by decide,
        show (cLowerT = cLbrace) = False from by decide,
        show (cLowerT = cLowerN) = False from by decide,
        if_false, if_pos rfl, if_true, stripLead_pre]
      rfl
    | false =>
      rw [show dumpJ (JVal.jbool false) = cLowerF :: ("alse").data from by simp [dumpJ]; decide]
      rw [List.cons_append, parseVal_cons]
      simp only [show (cLowerF = cQuote) = False from by decide,
        show (cLowerF = cLbrack) = False from by decide,
        show (cLowerF = cLbrace) = False from by decide,
        show (cLowerF = cLowerN) = False from by decide,
        show (cLowerF = cLowerT) = False from by decide,
        if_false, if_pos rfl, if_true, stripLead_pre]
      rfl
  | jnum n =>
    obtain ⟨c, cs, hc, h45, h57⟩ := encInt_head n
    obtain ⟨q1, q2, q3, q4, q5, q6, _, _⟩ := ne_special_of_range c h45 h57
    have hj : parseJNum (encInt n ++ rest) = some (n, rest) := parseJNum_encInt n rest hnd
    rw [show dumpJ (JVal.jnum n) = encInt n from by simp [dumpJ], hc, List.cons_append,
      parseVal_cons]
    simp only [q1, q2, q3, q4, q5, q6, if_false]
    rw [← List.cons_append, ← hc, hj]
  | jstr s =>
    rw [show dumpJ (JVal.jstr s) = cQuote :: (escStr s ++ [cQuote]) from by simp [dumpJ]]
    rw [List.cons_append, List.append_assoc, List.singleton_append, parseVal_cons]
    simp only [if_pos rfl, if_true, parseStrBody_escStr]
  | jarr xs =>
    cases xs with
    | anil =>
      rw [show dumpJ (JVal.jarr JArr.anil) = [cLbrack, cRbrack] from by simp [dumpJ]]
      rw [show ([cLbrack, cRbrack] : List Char) ++ rest = cLbrack :: cRbrack :: rest from rfl]
      rw [parseVal_cons]
      simp only [show (cLbrack = cQuote) = False from by decide, if_false, if_pos rfl, if_true]
    | acons v tl =>
      have hmu' : jMuArr (JArr.acons v tl) ≤ f := by
        simp only [jMu] at hmu
        omega
      obtain ⟨c2, cs2, hc2, hne2⟩ := dumpJ_head v
      have helems := parseElems_dump v tl f rest hmu'
      rw [show dumpJ (JVal.jarr (JArr.acons v tl))
          = cLbrack :: (dumpJ v ++ dumpArrTail tl ++ [cRbrack]) from by simp [dumpJ]]
      rw [List.cons_append, parseVal_cons]
      simp only [show (cLbrack = cQuote) = False from by decide, if_false, if_pos rfl, if_true]
      have hshape : (dumpJ v ++ dumpArrTail tl ++ [cRbrack]) ++ rest
          = dumpJ v ++ (dumpArrTail tl ++ cRbrack :: rest) := by
        simp [List.append_assoc]
      rw [hshape, hc2, List.cons_append]
      simp only [hne2, if_false]
      rw [← List.cons_append, ← hc2, helems]
  | jobj kvs =>
    cases kvs with
    | onil =>
      rw [show dumpJ (JVal.jobj JObj.onil) = [cLbrace, cRbrace] from by simp [dumpJ]]
      rw [show ([cLbrace, cRbrace] : List Char) ++ rest = cLbrace :: cRbrace :: rest from rfl]
      rw [parseVal_cons]
      simp only [show (cLbrace = cQuote) = False from by decide,
        show (cLbrace = cLbrack) = False from by decide, if_false, if_pos rfl, if_true]
    | ocons k v tl =>
      have hmu' : jMuObj (JObj.ocons k v tl) ≤ f := by
        simp only [jMu] at hmu
        omega
      have hmems := parseMembers_dump k v tl f rest hmu'
      rw [show dumpJ (JVal.jobj (JObj.ocons k v tl))
          = cLbrace :: (dumpMember k v ++ dumpObjTail tl ++ [cRbrace]) from by simp [dumpJ]]
      rw [List.cons_append, parseVal_cons]
      simp only [show (cLbrace = cQuote) = False from by decide,
        show (cLbrace = cLbrack) = False from by decide, if_false, if_pos rfl, if_true]
      have hshape : (dumpMember k v ++ dumpObjTail tl ++ [cRbrace]) ++ rest
          = dumpMember k v ++ (dumpObjTail tl ++ cRbrace :: rest) := by
        simp [List.append_assoc]
      rw [hshape]
      have hq : dumpMember k v ++ (dumpObjTail tl ++ cRbrace :: rest)
          = cQuote :: (escStr k ++ cQuote :: cColon :: dumpJ v
              ++ (dumpObjTail tl ++ cRbrace :: rest)) := by
        simp [dumpMember]
      rw [hq]
      simp only [show (cQuote = cRbrace) = False from by decide, if_false, if_pos rfl, if_true]
      rw [← hq, hmems]
termination_by sizeOf v

theorem parseElems_dump (v : JVal) (tl : JArr) : ∀ (fuel : ℕ) (rest : List Char),
    jMuArr (JArr.acons v tl) ≤ fuel →
    parseElems fuel (dumpJ v ++ (dumpArrTail tl ++ cRbrack :: rest))
      = some (JArr.acons v tl, rest) := by
  intro fuel rest hmu
  obtain ⟨f, rfl⟩ : ∃ f, fuel = f + 1 := ⟨fuel - 1, by simp [jMuArr] at hmu; omega⟩
  have hmuv : jMu v ≤ f := by simp [jMuArr] at hmu; omega
  have hval := parseVal_dumpJ v f (dumpArrTail tl ++ cRbrack :: rest) hmuv
    (noDigitHead_arrTail tl rest)
  rw [parseElems_step]
  simp only [hval]
  cases tl with
  | anil =>
    simp only [dumpArrTail, List.nil_append]
    simp only [show (cRbrack = cComma) = False from by decide, if_false, if_pos rfl, if_true]
  | acons w tw =>
    have hmu2 : jMuArr (JArr.acons w tw) ≤ f := by
      simp only [jMuArr] at hmu ⊢
      omega
    have hrec := parseElems_dump w tw f rest hmu2
    simp only [dumpArrTail, List.cons_append]
    simp only [if_pos rfl, if_true]
    rw [List.append_assoc, hrec]
termination_by 1 + sizeOf v + sizeOf tl

theorem parseMembers_dump (k : List Char) (v : JVal) (tl : JObj) :
    ∀ (fuel : ℕ) (rest : List Char),
    jMuObj (JObj.ocons k v tl) ≤ fuel →
    parseMembers fuel (dumpMember k v ++ (dumpObjTail tl ++ cRbrace :: rest))
      = some (JObj.ocons k v tl, rest) := by
  intro fuel rest hmu
  obtain ⟨f, rfl⟩ : ∃ f, fuel = f + 1 := ⟨fuel - 1, by simp [jMuObj] at hmu; omega⟩
  have hmuv : jMu v ≤ f := by simp [jMuObj] at hmu; omega
  have hval := parseVal_dumpJ v f (dumpObjTail tl ++ cRbrace :: rest) hmuv
    (noDigitHead_objTail tl rest)
  have hq : dumpMember k v ++ (dumpObjTail tl ++ cRbrace :: rest)
      = cQuote :: (escStr k ++ cQuote :: (cColon :: (dumpJ v
          ++ (dumpObjTail tl ++ cRbrace :: rest)))) := by
    simp [dumpMember]
  rw [hq, parseMembers_cons]
  simp only [if_pos rfl, if_true, parseStrBody_escStr]
  simp only [if_pos rfl, hval]
  cases tl with
  | onil =>
    simp only [dumpObjTail, List.nil_append]
    simp only [show (cRbrace = cComma) = False from by decide, if_false, if_pos rfl, if_true]
  | ocons k2 v2 tw =>
    have hmu2 : jMuObj (JObj.ocons k2 v2 tw) ≤ f := by
      simp only [jMuObj] at hmu ⊢
      omega
    have hrec := parseMembers_dump k2 v2 tw f rest hmu2
    simp only [dumpObjTail, List.cons_append]
    simp only [if_pos rfl, if_true]
    rw [List.append_assoc, hrec]
termination_by 1 + sizeOf v + sizeOf tl
end

mutual
theorem jMu_le_len (v : JVal) : jMu v ≤ (dumpJ v).length := by
  cases v with
  | jnull => simp [jMu, dumpJ]
  | jbool b => cases b <;> simp [jMu, dumpJ]
  | jnum n =>
    obtain ⟨c, cs, hc, _, _⟩ := encInt_head n
    simp [jMu, dumpJ, hc]
  | jstr s => simp [jMu, dumpJ]
  | jarr xs =>
    cases xs with
    | anil => simp [jMu, jMuArr, dumpJ]
    | acons v tl =>
      have h := jMuArr_le v tl
      simp only [jMu, dumpJ, List.length_cons, List.length_append]
      omega
  | jobj kvs =>
    cases kvs with
    | onil => simp [jMu, jMuObj, dumpJ]
    | ocons k v tl =>
      have h := jMuObj_le k v tl
      simp only [jMu, dumpJ, List.length_cons, List.length_append]
      omega
termination_by sizeOf v

theorem jMuArr_le (v : JVal) (tl : JArr) :
    jMuArr (JArr.acons v tl) ≤ 1 + (dumpJ v).length + (dumpArrTail tl).length := by
  have hv := jMu_le_len v
  cases tl with
  | anil =>
    simp only [jMuArr, dumpArrTail, List.length_nil]
    omega
  | acons w tw =>
    have hw := jMuArr_le w tw
    simp only [jMuArr, dumpArrTail, List.length_cons, List.length_append] at hw ⊢
    omega
termination_by 1 + sizeOf v + sizeOf tl

theorem jMuObj_le (k : List Char) (v : JVal) (tl : JObj) :
    jMuObj (JObj.ocons k v tl) ≤ 1 + (dumpMember k v).length + (dumpObjTail tl).length := by
  have hv := jMu_le_len v
  have hm : (dumpJ v).length ≤ (dumpMember k v).length := by
    simp [dumpMember]
    omega
  cases tl with
  | onil =>
    simp only [jMuObj, dumpObjTail, List.length_nil]
    omega
  | ocons k2 v2 tw =>
    have hw := jMuObj_le k2 v2 tw
    simp only [jMuObj, dumpObjTail, List.length_cons, List.length_append] at hw ⊢
    omega
termination_by 1 + sizeOf v + sizeOf tl
end

/-- `json.loads` inverts `json.dumps` on every modelled JSON value. -/
theorem loadJ_dumpJ (v : JVal) : loadJ (dumpJ v) = some v := by
  have h1 : jMu v ≤ (dumpJ v).length + 1 := le_trans (jMu_le_len v) (by omega)
  have h2 := parseVal_dumpJ v ((dumpJ v).length + 1) [] h1 rfl
  rw [List.append_nil] at h2
  unfold loadJ
  rw [h2]

theorem schedInv_init (sched0 : List Run) : SchedInv (initState sched0) := by
  refine ⟨fun g => rfl, fun g => ?_, fun j _ => ?_⟩ <;>
    simp [groupLoad, jobLoad, initState]

theorem filter_map_clearRespawn (p : Run → Bool)
    (hp : ∀ r, p (clearRespawn r) = p r) (l : List Run) :
    (l.map clearRespawn).filter p = (l.filter p).map clearRespawn := by
  rw [List.filter_map]
  congr 1
  exact List.filter_congr (fun r _ => (hp r))

theorem schedInv_step {s t : SchedState} (hst : SchedStep s t) (hinv : SchedInv s) :
    SchedInv t := by
  obtain ⟨haux, hcap, hexcl⟩ := hinv
  cases hst with
  | trigger job content mtimeUs parseDT freshId hsd =>
    exact ⟨haux, hcap, hexcl⟩
  | admitRun r go freshId tns hr hguard hgo =>
    refine ⟨?_, ?_, ?_⟩
    · intro g
      show addToGroup s.running_groups go { r with concurrency_group := go } g
          = (s.running_runs ++ [{ r with concurrency_group := go }]).filter
              (fun x : Run => decide (x.concurrency_group = some g))
      rcases hgo with ⟨hng, rfl⟩ | ⟨cg, hcg, rfl, hlt⟩
      · simp only [addToGroup]
        rw [List.filter_append, haux g]
        simp
      · simp only [addToGroup]
        by_cases hgeq : g = cg
        · subst hgeq
          rw [Function.update_same, List.filter_append, haux g]
          simp
        · rw [Function.update_noteq hgeq, List.filter_append, haux g]
          simp [Ne.symm hgeq]
    · intro g
      show ((s.running_runs ++ [{ r with concurrency_group := go }]).filter
          (fun x : Run => decide (x.concurrency_group = some g))).length ≤ g.max
      have hbase := hcap g
      simp only [groupLoad] at hbase
      rw [List.filter_append]
      rcases hgo with ⟨hng, rfl⟩ | ⟨cg, hcg, rfl, hlt⟩
      · simpa using hbase
      · by_cases hgeq : g = cg
        · subst hgeq
          have hlen : (s.running_groups g).length
              = (s.running_runs.filter
                  (fun x : Run => decide (x.concurrency_group = some g))).length := by
            rw [haux g]
          simp only [List.length_append]
          simp only [List.filter_cons, List.filter_nil]
          simp
          omega
        · simp [Ne.symm hgeq]
          simpa using hbase
    · intro j hj
      show ((s.running_runs ++ [{ r with concurrency_group := go }]).filter
          (fun x : Run => decide (x.job = j))).length ≤ 1
      have hbase := hexcl j hj
      simp only [jobLoad] at hbase
      rw [List.filter_append]
      by_cases hjr : j = r.job
      · subst hjr
        rcases hguard with hconc | hnone
        · rw [hj] at hconc
          exact absurd hconc (by simp)
        · have hnil : s.running_runs.filter
              (fun x : Run => decide (x.job = r.job)) = [] := by
            rw [List.filter_eq_nil_iff]
            intro x hx
            simp only [decide_eq_true_eq]
            exact (hnone x hx).1
          rw [hnil]
          simp
      · simp [Ne.symm hjr]
        simpa using hbase
  | reap r hr =>
    have herase : ∀ (p : Run → Bool),
        (s.running_runs.erase r).filter p = (s.running_runs.filter p).erase r :=
      fun p => (List.erase_filter p s.running_runs).symm
    refine ⟨?_, ?_, ?_⟩
    · intro g
      show removeFromGroup s.running_groups r g
          = (s.running_runs.erase r).filter (fun x : Run => decide (x.concurrency_group = some g))
      rw [herase]
      cases hgr : r.concurrency_group with
      | none =>
        simp only [removeFromGroup, hgr]
        have hnm : r ∉ s.running_runs.filter
            (fun x : Run => decide (x.concurrency_group = some g)) := by
          simp [List.mem_filter, hgr]
        rw [List.erase_of_not_mem hnm, haux g]
      | some cg =>
        have hmem : r ∈ s.running_groups cg := by
          rw [haux cg, List.mem_filter]
          exact ⟨hr, by simp [hgr]⟩
        simp only [removeFromGroup, hgr, if_pos hmem]
        by_cases hgeq : g = cg
        · subst hgeq
          rw [Function.update_same, haux g]
        · rw [Function.update_noteq hgeq]
          have hnm : r ∉ s.running_runs.filter
              (fun x : Run => decide (x.concurrency_group = some g)) := by
            intro hmemf
            rw [List.mem_filter] at hmemf
            have h2 := hmemf.2
            rw [hgr] at h2
            simp at h2
            exact hgeq h2.symm
          rw [List.erase_of_not_mem hnm, haux g]
    · intro g
      show ((s.running_runs.erase r).filter
          (fun x : Run => decide (x.concurrency_group = some g))).length ≤ g.max
      have hbase := hcap g
      simp only [groupLoad] at hbase
      rw [herase]
      calc ((s.running_runs.filter
            (fun x : Run => decide (x.concurrency_group = some g))).erase r).length
          ≤ (s.running_runs.filter
            (fun x : Run => decide (x.concurrency_group = some g))).length := by
            rw [List.length_erase]
            split <;> omega
        _ ≤ g.max := hbase
    · intro j hj
      show ((s.running_runs.erase r).filter (fun x : Run => decide (x.job = j))).length ≤ 1
      have hbase := hexcl j hj
      simp only [jobLoad] at hbase
      rw [herase]
      calc ((s.running_runs.filter (fun x : Run => decide (x.job = j))).erase r).length
          ≤ (s.running_runs.filter (fun x : Run => decide (x.job = j))).length := by
            rw [List.length_erase]
            split <;> omega
        _ ≤ 1 := hbase
  | beginShutdown =>
    refine ⟨?_, ?_, ?_⟩
    · intro g
      show (s.running_groups g).map clearRespawn
          = (s.running_runs.map clearRespawn).filter
              (fun x : Run => decide (x.concurrency_group = some g))
      rw [filter_map_clearRespawn
        (fun x : Run => decide (x.concurrency_group = some g)) (fun r => rfl), haux g]
    · intro g
      show ((s.running_runs.map clearRespawn).filter
          (fun x : Run => decide (x.concurrency_group = some g))).length ≤ g.max
      have hbase := hcap g
      simp only [groupLoad] at hbase
      rw [filter_map_clearRespawn
        (fun x : Run => decide (x.concurrency_group = some g)) (fun r => rfl),
        List.length_map]
      exact hbase
    · intro j hj
      show ((s.running_runs.map clearRespawn).filter
          (fun x : Run => decide (x.job = j))).length ≤ 1
      have hbase := hexcl j hj
      simp only [jobLoad] at hbase
      rw [filter_map_clearRespawn
        (fun x : Run => decide (x.job = j)) (fun r => rfl), List.length_map]
      exact hbase
  | reload newSched hsd =>
    refine ⟨?_, ?_, ?_⟩
    · intro g
      show (s.running_groups g).map clearRespawn
          = (s.running_runs.map clearRespawn).filter
              (fun x : Run => decide (x.concurrency_group = some g))
      rw [filter_map_clearRespawn
        (fun x : Run => decide (x.concurrency_group = some g)) (fun r => rfl), haux g]
    · intro g
      show ((s.running_runs.map clearRespawn).filter
          (fun x : Run => decide (x.concurrency_group = some g))).length ≤ g.max
      have hbase := hcap g
      simp only [groupLoad] at hbase
      rw [filter_map_clearRespawn
        (fun x : Run => decide (x.concurrency_group = some g)) (fun r => rfl),
        List.length_map]
      exact hbase
    · intro j hj
      show ((s.running_runs.map clearRespawn).filter
          (fun x : Run => decide (x.job = j))).length ≤ 1
      have hbase := hexcl j hj
      simp only [jobLoad] at hbase
      rw [filter_map_clearRespawn
        (fun x : Run => decide (x.job = j)) (fun r => rfl), List.length_map]
      exact hbase

theorem schedInv_reachable {s : SchedState} (h : SchedReachable s) : SchedInv s := by
  obtain ⟨s0, hsteps⟩ := h
  induction hsteps with
  | refl => exact schedInv_init s0
  | tail hab hbc ih => exact schedInv_step hbc ih

/-- Justification that `cronNextMS` is croniter's `get_next` semantics for a
fixed-minute/fixed-second expression: it is the least whole second strictly
after `tSec` whose in-hour position is `60*m + s`. -/
theorem cronNextMS_least (m s : ℕ) (tSec : ℤ) (hm : m < 60) (hs : s < 60) :
    tSec < cronNextMS m s tSec ∧
    (cronNextMS m s tSec) % 3600 = 60 * m + s ∧
    ∀ u : ℤ, tSec < u → u % 3600 = 60 * m + s → cronNextMS m s tSec ≤ u := by
  unfold cronNextMS
  refine ⟨by omega, by omega, ?_⟩
  intro u hu1 hu2
  omega

theorem subsecondOffsetUs_hello : subsecondOffsetUs (crc32Name "hello") = 211192 := by
  decide

theorem decode_hello :
    decodeSimpleMS (hashExpand (gnstFields "H * * * *") (crc32Name "hello"))
      = some (10, 32) := by
  decide

theorem getNextHello_eq (tUs : ℤ) :
    getNextScheduleTimeCron "H * * * *" "hello" tUs
      = some (cronNextMS 10 32 (tUs / 1000000) * 1000000 + 211192) := by
  simp only [getNextScheduleTimeCron, decode_hello, subsecondOffsetUs_hello]
  rfl

theorem fireSeq_val (k : ℕ) :
    fireSeq "H * * * *" "hello" k
      = some ((632 + 3600 * (k : ℤ)) * 1000000 + 211192) := by
  induction k with
  | zero =>
    simp only [Nat.cast_zero, mul_zero, add_zero]
    decide
  | succ n ih =>
    have hstep : fireSeq "H * * * *" "hello" (n + 1)
        = getNextScheduleTimeCron "H * * * *" "hello"
            ((632 + 3600 * (n : ℤ)) * 1000000 + 211192) := by
      simp only [fireSeq, ih]
    rw [hstep, getNextHello_eq]
    have hdiv : ((632 + 3600 * (n : ℤ)) * 1000000 + 211192) / 1000000
        = 632 + 3600 * (n : ℤ) := by omega
    rw [hdiv]
    have hnext : cronNextMS 10 32 (632 + 3600 * (n : ℤ))
        = 632 + 3600 * ((n : ℤ) + 1) := by
      unfold cronNextMS
      omega
    rw [hnext]
    push_cast
    ring_nf

theorem subsecondOffset_close (crc : ℕ) (h : crc ≤ 4294967295) :
    |(subsecondOffsetUs crc : ℚ) / 1000000 - specSubsecondOffset crc| < 1 / 1000000 := by
  have hclose := natDivRoundHalfEven_close (crc * 1000000) 4294967295 (by norm_num)
  have hcast : ((crc * 1000000 : ℕ) : ℚ) = (crc : ℚ) * 1000000 := by push_cast; ring
  rw [hcast] at hclose
  set A : ℚ := (subsecondOffsetUs crc : ℚ) with hAdef
  have h1 : |A - (crc : ℚ) * 1000000 / 4294967295| ≤ 1 / 2 := hclose
  have hsplit : A / 1000000 - specSubsecondOffset crc
      = (A - (crc : ℚ) * 1000000 / 4294967295) / 1000000
        + ((crc : ℚ) / 4294967295 - (crc : ℚ) / 4294967296) := by
    unfold specSubsecondOffset
    field_simp
    ring
  have hy : (crc : ℚ) / 4294967295 - (crc : ℚ) / 4294967296
      = (crc : ℚ) / (4294967295 * 4294967296) := by
    field_simp
    ring
  have hyb : (crc : ℚ) / (4294967295 * 4294967296) ≤ 1 / 4294967296 := by
    rw [div_le_div_iff₀ (by norm_num) (by norm_num)]
    have hc : ((crc : ℚ)) ≤ 4294967295 := by exact_mod_cast h
    nlinarith
  have hy0 : (0 : ℚ) ≤ (crc : ℚ) / (4294967295 * 4294967296) := by positivity
  have hx : |(A - (crc : ℚ) * 1000000 / 4294967295) / 1000000| ≤ (1 / 2) / 1000000 := by
    rw [abs_div, abs_of_pos (show (0 : ℚ) < 1000000 by norm_num)]
    linarith
  calc |A / 1000000 - specSubsecondOffset crc|
      = |(A - (crc : ℚ) * 1000000 / 4294967295) / 1000000
          + ((crc : ℚ) / 4294967295 - (crc : ℚ) / 4294967296)| := by rw [hsplit]
    _ ≤ |(A - (crc : ℚ) * 1000000 / 4294967295) / 1000000|
          + |(crc : ℚ) / 4294967295 - (crc : ℚ) / 4294967296| := abs_add _ _
    _ ≤ (1 / 2) / 1000000 + 1 / 4294967296 := by
        refine add_le_add hx ?_
        rw [hy, abs_of_nonneg hy0]
        exact hyb
    _ < 1 / 1000000 := by norm_num

theorem envSet_cons_ne (p : String × String) (tl : List (String × String)) (k v : String)
    (hp : ¬ p.1 = k) : envSet (p :: tl) k v = p :: envSet tl k v := by
  simp only [envSet, List.any_cons]
  by_cases hat : tl.any (fun q => q.1 = k) <;> simp [hp, hat]

theorem envSet_cons_eq (p : String × String) (tl : List (String × String)) (k v : String)
    (hp : p.1 = k) :
    envSet (p :: tl) k v = (k, v) :: tl.map (fun q => if q.1 = k then (k, v) else q) := by
  simp [envSet, List.any_cons, hp]

theorem envLookup_cons (p : String × String) (tl : List (String × String)) (k : String) :
    envLookup (p :: tl) k = if p.1 = k then some p.2 else envLookup tl k := by
  by_cases hp : p.1 = k <;> simp [envLookup, List.find?_cons, hp]

theorem envLookup_envSet_self (e : List (String × String)) (k v : String) :
    envLookup (envSet e k v) k = some v := by
  induction e with
  | nil => simp [envSet, envLookup, List.find?_cons]
  | cons p tl ih =>
    by_cases hp : p.1 = k
    · rw [envSet_cons_eq p tl k v hp, envLookup_cons]
      simp
    · rw [envSet_cons_ne p tl k v hp, envLookup_cons, if_neg hp]
      exact ih

theorem envLookup_map_set (tl : List (String × String)) (k v k' : String)
    (h : ¬ k' = k) :
    envLookup (tl.map (fun q => if q.1 = k then (k, v) else q)) k' = envLookup tl k' := by
  induction tl with
  | nil => rfl
  | cons q tw ih =>
    by_cases hq : q.1 = k
    · simp only [List.map_cons, if_pos hq]
      rw [envLookup_cons, envLookup_cons]
      have h1 : ¬ (k, v).1 = k' := by simpa using fun he => h he.symm
      have h2 : ¬ q.1 = k' := by
        rw [hq]
        exact fun he => h he.symm
      rw [if_neg h1, if_neg h2]
      exact ih
    · simp only [List.map_cons, if_neg hq]
      rw [envLookup_cons, envLookup_cons]
      by_cases hq' : q.1 = k'
      · rw [if_pos hq', if_pos hq']
      · rw [if_neg hq', if_neg hq']
        exact ih

theorem envLookup_envSet_other (e : List (String × String)) (k v k' : String)
    (h : ¬ k' = k) : envLookup (envSet e k v) k' = envLookup e k' := by
  induction e with
  | nil =>
    simp only [envSet, List.any_nil, Bool.false_eq_true, if_false, List.nil_append]
    rw [envLookup_cons]
    have h1 : ¬ (k, v).1 = k' := by simpa using fun he => h he.symm
    rw [if_neg h1]
  | cons p tl ih =>
    by_cases hp : p.1 = k
    · rw [envSet_cons_eq p tl k v hp, envLookup_cons, envLookup_cons]
      have h1 : ¬ (k, v).1 = k' := by simpa using fun he => h he.symm
      have h2 : ¬ p.1 = k' := by
        rw [hp]
        exact fun he => h he.symm
      rw [if_neg h1, if_neg h2]
      exact envLookup_map_set tl k v k' h
    · rw [envSet_cons_ne p tl k v hp, envLookup_cons, envLookup_cons]
      by_cases hp' : p.1 = k'
      · rw [if_pos hp', if_pos hp']
      · rw [if_neg hp', if_neg hp']
        exact ih

theorem envSet_preserves (e : List (String × String)) (k v k' : String)
    (h : (envLookup e k').isSome = true) :
    (envLookup (envSet e k v) k').isSome = true := by
  by_cases hk : k' = k
  · subst hk
    rw [envLookup_envSet_self]
    rfl
  · rw [envLookup_envSet_other e k v k' hk]
    exact h

theorem envSetAll_preserves (kvs : List (String × String)) :
    ∀ (e : List (String × String)) (k' : String),
    (envLookup e k').isSome = true →
    (envLookup (envSetAll e kvs) k').isSome = true := by
  induction kvs with
  | nil => intro e k' h; exact h
  | cons p tw ih =>
    intro e k' h
    exact ih (envSet e p.1 p.2) k' (envSet_preserves e p.1 p.2 k' h)

set_option maxHeartbeats 3200000 in
theorem envFinish_preserves (ctx : ChildCtx) (job : ChildJob) (run : ChildRun)
    (e : List (String × String)) (k' : String)
    (h : (envLookup e k').isSome = true) :
    (envLookup (envFinish ctx job run e) k').isSome = true := by
  unfold envFinish
  apply envSet_preserves
  repeat' (first
    | exact h
    | apply envSetAll_preserves
    | apply envSet_preserves
    | split)

theorem envBase_has (ctx : ChildCtx) (job : ChildJob) (run : ChildRun) :
    (envLookup (envBase ctx job run) "DATA_DIR").isSome = true ∧
    (envLookup (envBase ctx job run) "JOB_NAME").isSome = true ∧
    (envLookup (envBase ctx job run) "RUN_ID").isSome = true ∧
    (envLookup (envBase ctx job run) "RUN_DIR").isSome = true ∧
    (envLookup (envBase ctx job run) "SCHEDULE_TIME").isSome = true ∧
    (envLookup (envBase ctx job run) "START_TIME").isSome = true ∧
    (envLookup (envBase ctx job run) "TRIGGER_TYPE").isSome = true := by
  unfold envBase
  refine ⟨?_, ?_, ?_, ?_, ?_, ?_, ?_⟩
  · apply envSet_preserves
    apply envSet_preserves
    apply envSet_preserves
    apply envSet_preserves
    apply envSet_preserves
    apply envSet_preserves
    rw [envLookup_envSet_self]
    rfl
  · apply envSet_preserves
    apply envSet_preserves
    apply envSet_preserves
    apply envSet_preserves
    apply envSet_preserves
    rw [envLookup_envSet_self]
    rfl
  · apply envSet_preserves
    apply envSet_preserves
    apply envSet_preserves
    apply envSet_preserves
    rw [envLookup_envSet_self]
    rfl
  · apply envSet_preserves
    apply envSet_preserves
    apply envSet_preserves
    rw [envLookup_envSet_self]
    rfl
  · apply envSet_preserves
    apply envSet_preserves
    rw [envLookup_envSet_self]
    rfl
  · apply envSet_preserves
    rw [envLookup_envSet_self]
    rfl
  · rw [envLookup_envSet_self]
    rfl

theorem findCfgJob_name (cfg : List DBJob) (n : String) : (findCfgJob cfg n).name = n := by
  unfold findCfgJob
  cases hf : cfg.find? (fun j => j.name == n) with
  | none => rfl
  | some j =>
    have := List.find?_some hf
    simpa using this

theorem wRun_admit_step : SchedStep (initState [wRun]) wState := by
  have h := SchedStep.admitRun (initState [wRun]) wRun none 22 0
    (by simp [initState])
    (Or.inr (by intro x hx; simp [initState] at hx))
    (Or.inl ⟨rfl, rfl⟩)
  exact h
theorem crc32_hello : crc32Name "hello" = 907060870 := by
  decide

theorem mapM_singleton {α β : Type} (f : α → Option β) (a : α) (b : β)
    (h : f a = some b) : [a].mapM f = some [b] := by
  simp [List.mapM, List.mapM.loop, h]

/-- C1: Group capacity invariant: in every state reachable by the scheduler's
step relation (trigger intake, admission via `process_scheduled_run`, child
reaping via `process_next_child`, shutdown, reload), for every
ConcurrencyGroup `g`, the number of runs in `running_runs` whose chosen
concurrency group is `g` is at most `g.max`. -/
theorem C1_group_capacity (s : SchedState) (h : SchedReachable s)
    (g : ConcurrencyGroup) : groupLoad s g ≤ g.max :=
  (schedInv_reachable h).2.1 g

/-- Witness: the state reached by admitting `wRun` from `initState [wRun]`
satisfies the capacity bound for `wGroup`. -/
theorem C1_group_capacity_witness : groupLoad wState wGroup ≤ wGroup.max :=
  C1_group_capacity wState
    ⟨[wRun], Relation.ReflTransGen.single wRun_admit_step⟩ wGroup

/-- C2: Exclusivity invariant for non-concurrent jobs: in every state
reachable by the scheduler's step relation, for every Job `j` with
`concurrent_runs = false`, at most one run of `j` is in `running_runs`. -/
theorem C2_job_exclusivity (s : SchedState) (h : SchedReachable s)
    (j : Job) (hj : j.concurrent_runs = false) : jobLoad s j ≤ 1 :=
  (schedInv_reachable h).2.2 j hj

/-- Witness: the state reached by admitting `wRun` from `initState [wRun]`
has at most one running run of the non-concurrent job `wJob`. -/
theorem C2_job_exclusivity_witness : jobLoad wState wJob ≤ 1 :=
  C2_job_exclusivity wState
    ⟨[wRun], Relation.ReflTransGen.single wRun_admit_step⟩ wJob rfl

/-- `json.dumps` of a dict always starts with an opening brace. -/
theorem dumpJ_obj_cons (o : JObj) : ∃ tl, dumpJ (.jobj o) = cLbrace :: tl := by
  cases o with
  | onil => exact ⟨[cRbrace], by simp [dumpJ]⟩
  | ocons k v tl =>
    exact ⟨dumpMember k v ++ dumpObjTail tl ++ [cRbrace], by simp [dumpJ]⟩

/-- A field name that differs from the three short text columns and does
not start with a brace is not among the text values of the row written for
a run whose data fields are dicts. -/
theorem rowHasStrValue_false (r : DBRun) (k : String)
    (h1 : k ≠ r.job.name) (h2 : k ≠ r.id) (h3 : k ≠ r.trigger_type)
    (h4 : k.data.head? ≠ some cLbrace)
    (htd : ∃ o, r.trigger_data = JVal.jobj o)
    (hrd : ∃ o, r.run_data = JVal.jobj o) :
    rowHasStrValue (buildInsertRow r) k = false := by
  obtain ⟨ot, hot⟩ := htd
  obtain ⟨og, hog⟩ := hrd
  obtain ⟨tl1, htl1⟩ := dumpJ_obj_cons ot
  obtain ⟨tl2, htl2⟩ := dumpJ_obj_cons og
  have h5 : ∀ tl, k.data ≠ cLbrace :: tl := by
    intro tl h
    apply h4
    rw [h]
    rfl
  simp only [rowHasStrValue, buildInsertRow, hot, hog, htl1, htl2]
  simp [beq_eq_false_iff_ne, h1, h2, h3, h5 tl1, h5 tl2]

/-- The row written for `r` is rebuilt by `get_runs({run_id})` into a fresh
run: text fields copied, each time / exit-code field copied only when its
name collides with one of the row's text values (`sqlite3.Row`
membership). -/
theorem insert_get_rebuild (runs running : List DBRow) (cfg : List DBJob)
    (r : DBRun) (hfresh : ∀ w ∈ runs, w.run_id ≠ r.id) :
    getRuns (insertRun runs running r).1 cfg none (some [r.id])
      = some [⟨findCfgJob cfg r.job.name, r.id,
          if rowHasStrValue (buildInsertRow r) "schedule_time"
            then some r.schedule_time else none,
          if rowHasStrValue (buildInsertRow r) "start_time"
            then some r.start_time else none,
          if rowHasStrValue (buildInsertRow r) "stop_time"
            then some r.stop_time else none,
          if rowHasStrValue (buildInsertRow r) "exit_code"
            then some r.exit_code else none,
          r.trigger_type, r.trigger_data, r.run_data⟩] := by
  have hnil : runs.filter (fun w => ([r.id]).contains w.run_id) = [] := by
    rw [List.filter_eq_nil_iff]
    intro w hw
    simpa using hfresh w hw
  have hsel : selectRows (runs ++ [buildInsertRow r]) none (some [r.id])
      = [buildInsertRow r] := by
    simp only [selectRows, List.filter_append, hnil, List.nil_append]
    simp [buildInsertRow]
  show getRuns (runs ++ [buildInsertRow r]) cfg none (some [r.id]) = _
  unfold getRuns
  rw [hsel]
  have hone : buildRunFromResult (findCfgJob cfg (buildInsertRow r).job_name)
      (buildInsertRow r)
      = some ⟨findCfgJob cfg r.job.name, r.id,
          if rowHasStrValue (buildInsertRow r) "schedule_time"
            then some r.schedule_time else none,
          if rowHasStrValue (buildInsertRow r) "start_time"
            then some r.start_time else none,
          if rowHasStrValue (buildInsertRow r) "stop_time"
            then some r.stop_time else none,
          if rowHasStrValue (buildInsertRow r) "exit_code"
            then some r.exit_code else none,
          r.trigger_type, r.trigger_data, r.run_data⟩ := by
    simp [buildRunFromResult, buildInsertRow, loadJ_dumpJ, dtToEpoch_roundtrip]
  exact mapM_singleton _ _ _ hone

/-- C3 counterexample: inserting the fully-set finished run `c3run` into an
empty store and reading it back by run id returns a run whose
`schedule_time`, `start_time`, `stop_time` and `exit_code` are all `None` —
`sqlite3.Row` membership tests the row's values, so
`_build_run_from_result` skips all four fields — and the returned run
therefore differs from the original on those persisted fields. -/
theorem C3_roundtrip_counterexample :
    ∃ r', getRuns (insertRun [] [] c3run).1 c3cfg none (some [c3run.id])
        = some [r']
      ∧ r'.schedule_time = none ∧ r'.start_time = none
      ∧ r'.stop_time = none ∧ r'.exit_code = none
      ∧ persistedFieldsOut r' ≠ persistedFieldsSome c3run := by
  refine ⟨⟨⟨"job1"⟩, "run-1", none, none, none, none, "schedule",
      c3run.trigger_data, c3run.run_data⟩, ?_, rfl, rfl, rfl, rfl, ?_⟩
  · have h := insert_get_rebuild [] [] c3cfg c3run (by simp)
    have h1 := rowHasStrValue_false c3run "schedule_time" (by decide) (by decide)
      (by decide) (by decide) ⟨_, rfl⟩ ⟨_, rfl⟩
    have h2 := rowHasStrValue_false c3run "start_time" (by decide) (by decide)
      (by decide) (by decide) ⟨_, rfl⟩ ⟨_, rfl⟩
    have h3 := rowHasStrValue_false c3run "stop_time" (by decide) (by decide)
      (by decide) (by decide) ⟨_, rfl⟩ ⟨_, rfl⟩
    have h4 := rowHasStrValue_false c3run "exit_code" (by decide) (by decide)
      (by decide) (by decide) ⟨_, rfl⟩ ⟨_, rfl⟩
    rw [h1, h2, h3, h4] at h
    rw [h]
    rfl
  · simp [persistedFieldsOut, persistedFieldsSome, c3run]

/-- C3 (amended): for every finished Run `r` whose persisted fields are set,
whose id is fresh and whose row's text values do not collide with the four
field names, `get_runs` with the run-id set {r.id} returns exactly one Run
equal to `r` on `job_name`, `run_id`, `trigger_type`, `trigger_data` and
`run_data`, while `schedule_time`, `start_time`, `stop_time` and
`exit_code` come back `None`: `sqlite3.Row` membership makes
`_build_run_from_result` skip them, so the round trip is lossy on exactly
those four fields. -/
theorem C3_insert_get_amended (runs running : List DBRow) (cfg : List DBJob)
    (r : DBRun) (hfresh : ∀ w ∈ runs, w.run_id ≠ r.id)
    (h1 : rowHasStrValue (buildInsertRow r) "schedule_time" = false)
    (h2 : rowHasStrValue (buildInsertRow r) "start_time" = false)
    (h3 : rowHasStrValue (buildInsertRow r) "stop_time" = false)
    (h4 : rowHasStrValue (buildInsertRow r) "exit_code" = false) :
    ∃ r', getRuns (insertRun runs running r).1 cfg none (some [r.id])
        = some [r']
      ∧ r'.job.name = r.job.name ∧ r'.id = r.id
      ∧ r'.trigger_type = r.trigger_type
      ∧ r'.trigger_data = r.trigger_data ∧ r'.run_data = r.run_data
      ∧ r'.schedule_time = none ∧ r'.start_time = none
      ∧ r'.stop_time = none ∧ r'.exit_code = none := by
  refine ⟨⟨findCfgJob cfg r.job.name, r.id, none, none, none, none,
      r.trigger_type, r.trigger_data, r.run_data⟩, ?_,
    findCfgJob_name cfg r.job.name, rfl, rfl, rfl, rfl, rfl, rfl, rfl, rfl⟩
  have h := insert_get_rebuild runs running cfg r hfresh
  rw [h1, h2, h3, h4] at h
  rw [h]
  rfl

/-- Witness: the amended lossy round trip at the concrete run `c3run`
through an empty store. -/
theorem C3_insert_get_witness :
    (∀ w ∈ ([] : List DBRow), w.run_id ≠ c3run.id) ∧
    rowHasStrValue (buildInsertRow c3run) "schedule_time" = false ∧
    rowHasStrValue (buildInsertRow c3run) "start_time" = false ∧
    rowHasStrValue (buildInsertRow c3run) "stop_time" = false ∧
    rowHasStrValue (buildInsertRow c3run) "exit_code" = false ∧
    ∃ r', getRuns (insertRun [] [] c3run).1 c3cfg none (some [c3run.id])
        = some [r']
      ∧ r'.job.name = c3run.job.name ∧ r'.id = c3run.id
      ∧ r'.trigger_type = c3run.trigger_type
      ∧ r'.trigger_data = c3run.trigger_data ∧ r'.run_data = c3run.run_data
      ∧ r'.schedule_time = none ∧ r'.start_time = none
      ∧ r'.stop_time = none ∧ r'.exit_code = none :=
  ⟨by simp,
    rowHasStrValue_false c3run "schedule_time" (by decide) (by decide)
      (by decide) (by decide) ⟨_, rfl⟩ ⟨_, rfl⟩,
    rowHasStrValue_false c3run "start_time" (by decide) (by decide)
      (by decide) (by decide) ⟨_, rfl⟩ ⟨_, rfl⟩,
    rowHasStrValue_false c3run "stop_time" (by decide) (by decide)
      (by decide) (by decide) ⟨_, rfl⟩ ⟨_, rfl⟩,
    rowHasStrValue_false c3run "exit_code" (by decide) (by decide)
      (by decide) (by decide) ⟨_, rfl⟩ ⟨_, rfl⟩,
    C3_insert_get_amended [] [] c3cfg c3run (by simp)
      (rowHasStrValue_false c3run "schedule_time" (by decide) (by decide)
        (by decide) (by decide) ⟨_, rfl⟩ ⟨_, rfl⟩)
      (rowHasStrValue_false c3run "start_time" (by decide) (by decide)
        (by decide) (by decide) ⟨_, rfl⟩ ⟨_, rfl⟩)
      (rowHasStrValue_false c3run "stop_time" (by decide) (by decide)
        (by decide) (by decide) ⟨_, rfl⟩ ⟨_, rfl⟩)
      (rowHasStrValue_false c3run "exit_code" (by decide) (by decide)
        (by decide) (by decide) ⟨_, rfl⟩ ⟨_, rfl⟩)⟩

/-- C4 counterexample: raw wait status 139 (terminating signal 11 with the
core-dump flag, bit 7, set) is signalled with `WTERMSIG = 11`, yet
`wait_deadline` records `128 + (139 % 256) = 267`, which is neither
`128 + 11` nor within 0–255. -/
theorem C4_exit_code_counterexample :
    wIfSignaled 139 = true ∧ wTermSig 139 = 11 ∧
    waitChildExit 139 ≠ 128 + wTermSig 139 ∧ 255 < waitChildExit 139 := by
  decide

/-- C4 (amended): `wait_deadline` records `128 + (status % 256)` whenever the
low byte of the raw status is non-zero — so for a core-dumped signal the
recorded value is `256 + N + 128`, not `128 + N` — and the high byte (the
exit status) otherwise; the recorded value lies in 0–383, not 0–255.  The
signal-exit agreement with `128 + WTERMSIG` holds only when the core-dump
bit is clear. -/
theorem C4_exit_code_amended (status : ℕ) (h : status < 65536) :
    waitChildExit status =
      (if 0 < status % 256 then 128 + status % 256 else wExitStatus status) ∧
    (status % 128 ≠ 0 → status % 256 < 128 →
      waitChildExit status = 128 + wTermSig status) ∧
    waitChildExit status ≤ 383 := by
  refine ⟨?_, ?_, ?_⟩
  · simp only [waitChildExit, wExitStatus]
    split <;> omega
  · intro h1 h2
    simp only [waitChildExit, wTermSig]
    have h3 : 0 < status % 256 := by omega
    rw [if_pos h3]
    omega
  · simp only [waitChildExit]
    split <;> omega

/-- Witness: the amended exit-code characterisation at raw status 139. -/
theorem C4_exit_code_witness :
    139 < 65536 ∧
    (waitChildExit 139 =
        (if 0 < 139 % 256 then 128 + 139 % 256 else wExitStatus 139) ∧
      (139 % 128 ≠ 0 → 139 % 256 < 128 →
        waitChildExit 139 = 128 + wTermSig 139) ∧
      waitChildExit 139 ≤ 383) :=
  ⟨by decide, C4_exit_code_amended 139 (by decide)⟩

/-- C5 counterexample: `cJob5` forbids concurrent runs and its respawn run
`cRespawnRun` is queued, yet `process_trigger_job` on a valid trigger file
leaves the respawn run in place and appends the new file-triggered run — no
replacement happens. -/
theorem C5_trigger_replace_counterexample :
    cJob5.concurrent_runs = false ∧ cRespawnRun.respawn = true ∧
    cRespawnRun.job = cJob5 ∧
    processTriggerJob [cRespawnRun] cJob5 (some cTrigData) 5000000 noParseDT 12
      = [cRespawnRun, cTrigNewRun] := by
  decide

/-- C5 (amended): for every valid trigger (a dict whose `environment` entry,
if present, is a dict, and whose `schedule_time` resolves), the new
file-triggered run with `respawn = false` is appended to `scheduled_runs`,
which is otherwise left unchanged — queued respawn runs are never
replaced. -/
theorem C5_trigger_append_amended (scheduled : List Run) (job : Job)
    (kvs : JObj) (mtimeUs t : ℤ) (parseDT : List Char → Option ℤ) (freshId : ℕ)
    (hdict : envNotDict kvs = false)
    (ht : triggerScheduleTime kvs mtimeUs parseDT = some t) :
    processTriggerJob scheduled job (some (.jobj kvs)) mtimeUs parseDT freshId
      = scheduled ++ [⟨freshId, job, false, "file", .jobj kvs, t, none⟩] := by
  simp [processTriggerJob, hdict, ht]

/-- Witness: the amended append rule on the concrete trigger payload
`cTrigKvs` with a queued respawn run. -/
theorem C5_trigger_append_witness :
    envNotDict cTrigKvs = false ∧
    triggerScheduleTime cTrigKvs 5000000 noParseDT = some 5000000 ∧
    processTriggerJob [cRespawnRun] cJob5 (some (.jobj cTrigKvs)) 5000000
        noParseDT 12
      = [cRespawnRun] ++ [⟨12, cJob5, false, "file", .jobj cTrigKvs, 5000000, none⟩] :=
  ⟨by decide, by decide,
    C5_trigger_append_amended [cRespawnRun] cJob5 cTrigKvs 5000000 5000000
      noParseDT 12 (by decide) (by decide)⟩

/-- C6 counterexample: for a child with no user-supplied environment at all,
the environment handed to `execvpe` contains neither `JOB_DIR` nor
`TRIGGER_DIR` — `run_child_executor` never sets them. -/
theorem C6_run_context_env_counterexample :
    envLookup (buildEnviron c6ctx c6job c6run) "JOB_DIR" = none ∧
    envLookup (buildEnviron c6ctx c6job c6run) "TRIGGER_DIR" = none := by
  decide

/-- C6 (amended): the environment handed to `execvpe` always contains the
seven run-context variables `DATA_DIR`, `JOB_NAME`, `RUN_ID`, `RUN_DIR`,
`SCHEDULE_TIME`, `START_TIME` and `TRIGGER_TYPE`; `JOB_DIR` and
`TRIGGER_DIR` are not part of the run context (with no user-supplied
environment, both are absent). -/
theorem C6_run_context_env_amended (ctx : ChildCtx) (job : ChildJob)
    (run : ChildRun) :
    ((envLookup (buildEnviron ctx job run) "DATA_DIR").isSome = true ∧
     (envLookup (buildEnviron ctx job run) "JOB_NAME").isSome = true ∧
     (envLookup (buildEnviron ctx job run) "RUN_ID").isSome = true ∧
     (envLookup (buildEnviron ctx job run) "RUN_DIR").isSome = true ∧
     (envLookup (buildEnviron ctx job run) "SCHEDULE_TIME").isSome = true ∧
     (envLookup (buildEnviron ctx job run) "START_TIME").isSome = true ∧
     (envLookup (buildEnviron ctx job run) "TRIGGER_TYPE").isSome = true) ∧
    envLookup (buildEnviron c6ctx c6job c6run) "JOB_DIR" = none ∧
    envLookup (buildEnviron c6ctx c6job c6run) "TRIGGER_DIR" = none := by
  refine ⟨?_, by decide, by decide⟩
  obtain ⟨h1, h2, h3, h4, h5, h6, h7⟩ := envBase_has ctx job run
  exact ⟨envFinish_preserves ctx job run _ _ h1,
    envFinish_preserves ctx job run _ _ h2,
    envFinish_preserves ctx job run _ _ h3,
    envFinish_preserves ctx job run _ _ h4,
    envFinish_preserves ctx job run _ _ h5,
    envFinish_preserves ctx job run _ _ h6,
    envFinish_preserves ctx job run _ _ h7⟩

/-- C7 counterexample: a bounded rule whose only occurrence (at 1 s) is not
after the anchor (2 s): `rrule.after` yields `None`, and
`get_next_schedule_time` raises `TypeError` at `None + subsecond_offset`
instead of returning `none` as a value. -/
theorem C7_rrule_none_counterexample :
    rruleAfter [1000000] 2000000 = none ∧
    getNextScheduleTimeRRule (rruleAfter [1000000] 2000000) 500000
      = Except.error PyExc.typeError :=
  ⟨rfl, rfl⟩

/-- C7 (amended): the `RRULE:` branch never returns `none` as a value: when
`rrule.after` yields `None` (a bounded rule with no occurrence after the
anchor) it raises `TypeError` at `None + subsecond_offset` — the explicit
`ValueError` check for `None` is unreachable — and otherwise it returns the
occurrence plus the sub-second offset. -/
theorem C7_rrule_amended (aft : Option ℤ) (off : ℤ) :
    getNextScheduleTimeRRule aft off =
      match aft with
      | none => Except.error PyExc.typeError
      | some v => Except.ok (some (v + off)) := by
  cases aft <;> rfl

/-- C8 counterexample: for job name `hello` (crc32 907060870), the recorded
sub-second offset is 211192 µs, which is not exactly `crc32(name) / 2^32`
seconds: the source divides by `0xffffffff = 2^32 - 1` and the result is
quantized to whole microseconds. -/
theorem C8_subsecond_counterexample :
    subsecondOffsetUs (crc32Name "hello") = 211192 ∧
    ((subsecondOffsetUs (crc32Name "hello") : ℚ)) / 1000000
      ≠ specSubsecondOffset (crc32Name "hello") := by
  refine ⟨subsecondOffsetUs_hello, ?_⟩
  rw [subsecondOffsetUs_hello, crc32_hello]
  unfold specSubsecondOffset
  norm_num

/-- C8 (amended): the sub-second offset actually added is
`crc32(name) / (2^32 - 1)` seconds quantized to whole microseconds, which
lies within 1 µs of the spec's `crc32(name) / 2^32` for every 32-bit crc
value. -/
theorem C8_subsecond_amended (crc : ℕ) (h : crc ≤ 4294967295) :
    |(subsecondOffsetUs crc : ℚ) / 1000000 - specSubsecondOffset crc|
      < 1 / 1000000 :=
  subsecondOffset_close crc h

/-- Witness: the amended 1 µs bound at the crc of job name `hello`. -/
theorem C8_subsecond_witness :
    crc32Name "hello" ≤ 4294967295 ∧
    |(subsecondOffsetUs (crc32Name "hello") : ℚ) / 1000000
        - specSubsecondOffset (crc32Name "hello")| < 1 / 1000000 :=
  ⟨by decide, C8_subsecond_amended (crc32Name "hello") (by decide)⟩

/-- C9 counterexample: for schedule `H * * * *`, name `hello` and anchor
`2020-01-01T00:00:00` (instant 0 µs), the first fire is
`2020-01-01T00:10:32.211192` (632211192 µs) — the appended sixth field `H`
hashes the second to 32 and the sub-second offset adds 211192 µs — not
`2020-01-01T00:10:00` (600000000 µs). -/
theorem C9_hash_hourly_counterexample :
    gnstFields "H * * * *" = ["H", "*", "*", "*", "*", "H"] ∧
    fireSeq "H * * * *" "hello" 0 = some 632211192 ∧
    fireSeq "H * * * *" "hello" 0 ≠ some 600000000 := by
  refine ⟨by decide, by decide, by decide⟩

/-- C9 (amended): for schedule `H * * * *`, name `hello` and anchor
`2020-01-01T00:00:00`, the first fire is `2020-01-01T00:10:32.211192` and
every subsequent fire is exactly one hour after the previous one:
the k-th fire is at `632211192 + 3600000000·k` µs. -/
theorem C9_hash_hourly_amended (k : ℕ) :
    fireSeq "H * * * *" "hello" k = some (632211192 + 3600000000 * (k : ℤ)) := by
  have h := fireSeq_val k
  rw [h]
  congr 1
  ring

/-- C10: `get_runs` filter precedence: with both a job-name set and a run-id
set supplied, the result is filtered by the run-id set alone (the job-name
set is ignored); with neither supplied, every row of the store is
rebuilt. -/
theorem C10_getruns_filtering (rows : List DBRow) (cfg : List DBJob)
    (jns ids : List String) :
    getRuns rows cfg (some jns) (some ids) = getRuns rows cfg none (some ids) ∧
    selectRows rows (some jns) (some ids)
      = rows.filter (fun w => ids.contains w.run_id) ∧
    selectRows rows none none = rows :=
  ⟨rfl, rfl, rfl⟩
